import Mathlib

/-!
# Load-order reconciliation of `GamebryoGamePlugins`

A shallow embedding of `src/gamebryo/gamebryogameplugins.cpp`: the freshness
decision of `readPluginLists` / `getLoadOrder`, the two readers
`readLoadOrderList` and `readPluginList`, and the writer `writeList`.

Collaborators that live outside the repository (Qt, the plugin-state
container, `SafeWriteFile`, `std::sort`) enter as parameters or as small
models that are marked as such.
-/

namespace Gamebryo

/-! ## Strings, bytes and time stamps -/

/-- A `QString`, as the sequence of its characters. -/
abbrev QString := List Char

/-- A `QByteArray`; bytes are written as characters. -/
abbrev QByteArray := List Char

/-- The method `QString::toLower`; the case mapping is the one of `Char.toLower`. -/
def toLower (s : QString) : QString := s.map Char.toLower

/-- Equality of two names under `Qt::CaseInsensitive`. -/
def ciEq (a b : QString) : Bool := toLower a == toLower b

/-- The call `list.contains(s, Qt::CaseInsensitive)` of `QStringList`. -/
def containsCI (l : List QString) (s : QString) : Bool := l.any (fun x => ciEq x s)

/-- A `QDateTime`: either invalid, or an instant in milliseconds. -/
inductive QDateTime where
  | invalid : QDateTime
  | msecs (t : Nat) : QDateTime
  deriving DecidableEq, Repr

/-- The method `QDateTime::isValid`. -/
def QDateTime.isValid : QDateTime → Bool
  | .invalid => false
  | .msecs _ => true

/-- The comparison `lhs < rhs` of `QDateTime`: an invalid value is below every valid one. -/
def QDateTime.lt : QDateTime → QDateTime → Bool
  | .invalid, rhs => rhs.isValid
  | .msecs _, .invalid => false
  | .msecs a, .msecs b => decide (a < b)

/-- The comparison `lhs <= rhs` of `QDateTime`, which Qt defines as `!(rhs < lhs)`. -/
def QDateTime.le (lhs rhs : QDateTime) : Bool := !QDateTime.lt rhs lhs

/-! ## The plugin-state container -/

/-- The enumeration `IPluginList::PluginStates`. -/
inductive PluginStates where
  | STATE_MISSING : PluginStates
  | STATE_INACTIVE : PluginStates
  | STATE_ACTIVE : PluginStates
  deriving DecidableEq, Repr

open PluginStates

/-- Modelled from the spec: the plugin-state container `IPluginList` (§6), whose
implementation is not part of the repository. It answers `pluginNames`, `state`,
`priority` and `origin`; `loadOrder` records the argument of the last `setLoadOrder`. -/
structure IPluginList where
  pluginNames : List QString
  state : QString → PluginStates
  priority : QString → Int
  origin : QString → QString
  loadOrder : List QString

/-- Modelled from the spec: `IPluginList::setState`. The state of the named plugin becomes
`s`; names are identified ignoring case (§3). -/
def IPluginList.setState (pl : IPluginList) (name : QString) (s : PluginStates) : IPluginList :=
  { pl with state := fun n => if ciEq n name then s else pl.state n }

/-- Modelled from the spec: `IPluginList::setLoadOrder`, which receives the canonical order. -/
def IPluginList.setLoadOrder (pl : IPluginList) (order : List QString) : IPluginList :=
  { pl with loadOrder := order }

/-! ## `std::sort` -/

/-- The requirement of the C++ standard on a comparator: a strict weak ordering. -/
structure StrictWeakOrder {α : Type} (comp : α → α → Bool) : Prop where
  irrefl : ∀ a, comp a a = false
  trans : ∀ a b c, comp a b = true → comp b c = true → comp a c = true
  incomp_trans : ∀ a b c, comp a b = false → comp b a = false → comp b c = false →
    comp c b = false → comp a c = false ∧ comp c a = false

/-- The contract of `std::sort` on a list of names: the result is a rearrangement of the
input, and for a strict weak ordering no element is ordered before an earlier one. The
relative order of equivalent elements is left open, as in the standard. -/
structure StdSort where
  sort : (QString → QString → Bool) → List QString → List QString
  perm : ∀ comp l, (sort comp l).Perm l
  sorted : ∀ comp l, StrictWeakOrder comp →
    (sort comp l).Pairwise (fun a b => comp b a = false)

/-! ## The environment of the reader -/

/-- What the code asks of `IOrganizer`: the profile directory, the primary plugins and
data directory of the managed game, and the directory of the mod with a given origin
(`none` when `getMod` returns `nullptr`). -/
structure Organizer where
  profilePath : QString
  primaryPlugins : List QString
  dataDirectory : QString
  getMod : QString → Option QString

/-- What the code observes of the file system. `readAll` is the content of a file that
`QFile::open` opens (`none` when it cannot be opened); `forEachLine` is the sequence of lines
that `MOBase::forEachLineInFile` hands to its callback (`none` when it returns `false`). -/
structure FileSystem where
  fileExists : QString → Bool
  lastModified : QString → QDateTime
  readAll : QString → Option QByteArray
  forEachLine : QString → Option (List QString)
  absoluteFilePath : QString → QString → QString

/-- The fields of `GamebryoGamePlugins`: `m_LastRead` and `m_LastSaveHash` (a missing key
of the map reads as the empty byte array, as `operator[]` makes it). -/
structure GamebryoGamePlugins where
  m_LastRead : QDateTime
  m_LastSaveHash : QString → QByteArray

/-- The constructor: an invalid `m_LastRead` and an empty hash map. -/
def GamebryoGamePlugins.new : GamebryoGamePlugins :=
  { m_LastRead := .invalid, m_LastSaveHash := fun _ => [] }

/-- The path `profile()->absolutePath() + "/plugins.txt"`. -/
def pluginsPath (org : Organizer) : QString := org.profilePath ++ "/plugins.txt".toList

/-- The path `profile()->absolutePath() + "/loadorder.txt"`. -/
def loadOrderPath (org : Organizer) : QString := org.profilePath ++ "/loadorder.txt".toList

/-! ## `readPluginList` -/

/-- The first loop of `readPluginList`: every primary plugin that is not missing is set
active. -/
def forcePrimaryActive (primary : List QString) (pl : IPluginList) : IPluginList :=
  primary.foldl
    (fun pl pluginName =>
      if pl.state pluginName ≠ STATE_MISSING then pl.setState pluginName STATE_ACTIVE else pl)
    pl

/-- The method `QStringList::removeAll`. -/
def removeAll (l : List QString) (s : QString) : List QString := l.filter (fun x => x ≠ s)

/-- The second loop of `readPluginList`: it walks a copy of the names and removes from
`plugins` every occurrence of a name that `primary` contains ignoring case. -/
def removePrimary (primary : List QString) (plugins : List QString) : List QString :=
  plugins.foldl
    (fun acc plugin => if containsCI primary plugin then removeAll acc plugin else acc)
    plugins

/-- The file whose modification time the comparator reads for a plugin: the plugin's name
inside the directory of its mod, or inside the data directory when there is no such mod. -/
def resolvedPath (org : Organizer) (fs : FileSystem) (pl : IPluginList) (name : QString) :
    QString :=
  let dir := match org.getMod (pl.origin name) with
    | some modPath => modPath
    | none => org.dataDirectory
  fs.absoluteFilePath dir name

/-- The modification time of the resolved file of a plugin. -/
def resolvedTime (org : Organizer) (fs : FileSystem) (pl : IPluginList) (name : QString) :
    QDateTime :=
  fs.lastModified (resolvedPath org fs pl name)

/-- The comparator handed to `std::sort` in `readPluginList`. -/
def fileTimeLess (org : Organizer) (fs : FileSystem) (pl : IPluginList)
    (lhs rhs : QString) : Bool :=
  QDateTime.lt (resolvedTime org fs pl lhs) (resolvedTime org fs pl rhs)

/-- Pieces returned by repeated `QFile::readLine`: each ends with its line feed, except
possibly the last. The first argument holds the bytes of the piece being read. -/
def readLinesAux : QByteArray → QByteArray → List QByteArray
  | cur, [] => if cur.isEmpty then [] else [cur]
  | cur, c :: rest =>
    if c = '\n' then (cur ++ [c]) :: readLinesAux [] rest else readLinesAux (cur ++ [c]) rest

/-- The lines of a file, as the loop `while (!file.atEnd()) file.readLine()` sees them. -/
def readLines (content : QByteArray) : List QByteArray := readLinesAux [] content

/-- White space in the sense of `QByteArray::trimmed`. -/
def isSpace (c : Char) : Bool :=
  c = ' ' || c = '\t' || c = '\n' || c = '\x0b' || c = '\x0c' || c = '\r'

/-- The method `QByteArray::trimmed`. -/
def trimmed (b : QByteArray) : QByteArray :=
  ((b.dropWhile isSpace).reverse.dropWhile isSpace).reverse

/-- The bytes that `constData()` shows as a C string: those before the first zero byte. -/
def constData (b : QByteArray) : QByteArray := b.takeWhile (fun c => c ≠ '\x00')

/-- The name read from one line of `plugins.txt`: empty for an empty line and for a line
whose first byte is `#`, otherwise the trimmed line (its text is taken character by
character). -/
def lineName (line : QByteArray) : QString :=
  if line.length > 0 ∧ line.head? ≠ some '#' then constData (trimmed line) else []

/-- The loop over the lines of `plugins.txt`: a non-empty name is set active and pushed on
`activePlugins`. -/
def readActive (lines : List QByteArray) (pl : IPluginList) : IPluginList × List QString :=
  lines.foldl
    (fun (acc : IPluginList × List QString) line =>
      let pluginName := lineName line
      if pluginName.length > 0 then
        (acc.1.setState pluginName STATE_ACTIVE, acc.2 ++ [pluginName])
      else acc)
    (pl, [])

/-- The method `GamebryoGamePlugins::readPluginList`: the returned list and the container
after the calls of `setState`. -/
def readPluginList (org : Organizer) (fs : FileSystem) (sorter : StdSort)
    (pluginList : IPluginList) : List QString × IPluginList :=
  let primary := org.primaryPlugins
  let pl₁ := forcePrimaryActive primary pluginList
  let plugins := removePrimary primary pl₁.pluginNames
  let plugins := sorter.sort (fileTimeLess org fs pl₁) plugins
  let pluginsTxtExists : Option QByteArray :=
    match fs.readAll (pluginsPath org) with
    | none => none
    | some content => if content.length = 0 then none else some content
  match pluginsTxtExists with
  | some content =>
    let (pl₂, activePlugins) := readActive (readLines content) pl₁
    let pl₃ := plugins.foldl
      (fun pl pluginName =>
        if !containsCI activePlugins pluginName then pl.setState pluginName STATE_INACTIVE
        else pl)
      pl₂
    (primary ++ plugins, pl₃)
  | none =>
    let pl₂ := plugins.foldl (fun pl pluginName => pl.setState pluginName STATE_INACTIVE) pl₁
    (primary ++ plugins, pl₂)

/-! ## `readLoadOrderList` -/

/-- The callback of `readLoadOrderList`, on the pair of `pluginLookup` and `pluginNames`. -/
def loadOrderCallback (acc : List QString × List QString) (s : QString) :
    List QString × List QString :=
  if !acc.1.contains (toLower s) then (s :: acc.1, acc.2 ++ [s]) else acc

/-- The method `GamebryoGamePlugins::readLoadOrderList`. The set `pluginLookup` is kept as
a list, of which only membership is used. -/
def readLoadOrderList (org : Organizer) (fs : FileSystem) (sorter : StdSort)
    (pluginList : IPluginList) (filePath : QString) : List QString × IPluginList :=
  let pluginNames := org.primaryPlugins
  let pluginLookup := pluginNames.map toLower
  match fs.forEachLine filePath with
  | some lines => ((lines.foldl loadOrderCallback (pluginLookup, pluginNames)).2, pluginList)
  | none => readPluginList org fs sorter pluginList

/-! ## `readPluginLists` and `getLoadOrder` -/

/-- The flag `loadOrderIsNew` of `readPluginLists` and `getLoadOrder`. -/
def loadOrderIsNew (org : Organizer) (fs : FileSystem) (self : GamebryoGamePlugins) : Bool :=
  !self.m_LastRead.isValid || !fs.fileExists (loadOrderPath org) ||
    QDateTime.lt self.m_LastRead (fs.lastModified (loadOrderPath org))

/-- The flag `pluginsIsNew` of `readPluginLists` and `getLoadOrder`. -/
def pluginsIsNew (org : Organizer) (fs : FileSystem) (self : GamebryoGamePlugins) : Bool :=
  !self.m_LastRead.isValid || QDateTime.lt self.m_LastRead (fs.lastModified (pluginsPath org))

/-- The method `GamebryoGamePlugins::readPluginLists`; `now` is
`QDateTime::currentDateTime()`. -/
def readPluginLists (org : Organizer) (fs : FileSystem) (sorter : StdSort) (now : Nat)
    (self : GamebryoGamePlugins) (pluginList : IPluginList) :
    GamebryoGamePlugins × IPluginList :=
  let pl :=
    if loadOrderIsNew org fs self || !pluginsIsNew org fs self then
      let r := readLoadOrderList org fs sorter pluginList (loadOrderPath org)
      let pl₁ := r.2.setLoadOrder r.1
      (readPluginList org fs sorter pl₁).2
    else
      let r := readPluginList org fs sorter pluginList
      r.2.setLoadOrder r.1
  ({ self with m_LastRead := .msecs now }, pl)

/-- The method `GamebryoGamePlugins::getLoadOrder`, on the container of the organizer. -/
def getLoadOrder (org : Organizer) (fs : FileSystem) (sorter : StdSort)
    (self : GamebryoGamePlugins) (pluginList : IPluginList) : List QString × IPluginList :=
  if loadOrderIsNew org fs self || !pluginsIsNew org fs self then
    readLoadOrderList org fs sorter pluginList (loadOrderPath org)
  else
    readPluginList org fs sorter pluginList

/-! ## `writeList` -/

/-- A `QStringEncoder`: `encode` is the conversion of a string into bytes, which moves the
state of the encoder, and `hasError` reads that state. The encoders themselves belong to Qt.
The call `encoder.encode(s)` of Qt 6 returns a proxy and converts nothing; the conversion
runs when the proxy is turned into a `QByteArray`. -/
structure QStringEncoder where
  State : Type
  init : State
  encode : State → QString → QByteArray × State
  hasError : State → Bool

/-- The two encoders that `writeList` chooses from. -/
structure Encoders where
  utf8 : QStringEncoder
  system : QStringEncoder

/-- The choice `loadOrder ? Utf8 : System` of `writeList`. -/
def selectEncoder (encs : Encoders) (loadOrder : Bool) : QStringEncoder :=
  if loadOrder then encs.utf8 else encs.system

/-- The header line that `writeList` writes first. -/
def header : QString := "# This file was automatically generated by Mod Organizer.\r\n".toList

/-- The line terminator that `writeList` writes after each included name. -/
def crlf : QByteArray := "\r\n".toList

/-- The local state of `writeList` while it fills the temporary file. -/
structure WriteBuffer (σ : Type) where
  file : QByteArray
  enc : σ
  invalidFileNames : Bool
  writtenCount : Nat

/-- The comparator handed to `std::sort` in `writeList`. -/
def priorityLess (pl : IPluginList) (lhs rhs : QString) : Bool :=
  decide (pl.priority lhs < pl.priority rhs)

/-- The test of `writeList` that decides whether a name is included. -/
def included (pl : IPluginList) (loadOrder : Bool) (pluginName : QString) : Bool :=
  loadOrder || pl.state pluginName == STATE_ACTIVE

/-- One round of the loop of `writeList`. The line `auto result = encoder.encode(pluginName)`
only builds the proxy, so `encoder.hasError()` reads the state that the conversions before
this name have left; the name is converted when `file->write(result)` takes the bytes, and
it is not converted at all when the error is set. -/
def writeStep (encoder : QStringEncoder) (pl : IPluginList) (loadOrder : Bool)
    (buf : WriteBuffer encoder.State) (pluginName : QString) : WriteBuffer encoder.State :=
  if included pl loadOrder pluginName then
    let buf₁ : WriteBuffer encoder.State :=
      if encoder.hasError buf.enc then
        { buf with invalidFileNames := true }
      else
        let result := encoder.encode buf.enc pluginName
        { buf with enc := result.2, file := buf.file ++ result.1 }
    { buf₁ with file := buf₁.file ++ crlf, writtenCount := buf₁.writtenCount + 1 }
  else buf

/-- The temporary file and the counters of `writeList` when its loop has ended. -/
def writeBuffer (encs : Encoders) (sorter : StdSort) (pl : IPluginList) (loadOrder : Bool) :
    WriteBuffer (selectEncoder encs loadOrder).State :=
  let encoder := selectEncoder encs loadOrder
  let head := encoder.encode encoder.init header
  let plugins := sorter.sort (priorityLess pl) pl.pluginNames
  plugins.foldl (writeStep encoder pl loadOrder)
    { file := head.1, enc := head.2, invalidFileNames := false, writtenCount := 0 }

/-- The content of the files that `writeList` targets (`none` for a file that is absent). -/
abbrev Disk := QString → Option QByteArray

/-- Modelled from the spec: `SafeWriteFile::commitIfDifferent` (§4.3). The target is
replaced only when the fingerprint of the new content differs from the stored one, and the
stored fingerprint is updated on commit. -/
def commitIfDifferent (hashFn : QByteArray → QByteArray) (content : QByteArray)
    (filePath : QString) (disk : Disk) (inHash : QByteArray) : Disk × QByteArray :=
  let newHash := hashFn content
  if newHash ≠ inHash then
    (fun p => if p = filePath then some content else disk p, newHash)
  else (disk, inHash)

/-- The method `GamebryoGamePlugins::writeList`. -/
def writeList (encs : Encoders) (hashFn : QByteArray → QByteArray) (sorter : StdSort)
    (self : GamebryoGamePlugins) (disk : Disk) (pl : IPluginList) (filePath : QString)
    (loadOrder : Bool) : GamebryoGamePlugins × Disk :=
  let buf := writeBuffer encs sorter pl loadOrder
  if buf.writtenCount = 0 then (self, disk)
  else
    let r := commitIfDifferent hashFn buf.file filePath disk (self.m_LastSaveHash filePath)
    ({ self with
        m_LastSaveHash := fun p => if p = filePath then r.2 else self.m_LastSaveHash p },
      r.1)

/-- The method `GamebryoGamePlugins::writePluginList`. -/
def writePluginList (encs : Encoders) (hashFn : QByteArray → QByteArray) (sorter : StdSort)
    (self : GamebryoGamePlugins) (disk : Disk) (pl : IPluginList) (filePath : QString) :
    GamebryoGamePlugins × Disk :=
  writeList encs hashFn sorter self disk pl filePath false

/-- The method `GamebryoGamePlugins::writeLoadOrderList`. -/
def writeLoadOrderList (encs : Encoders) (hashFn : QByteArray → QByteArray) (sorter : StdSort)
    (self : GamebryoGamePlugins) (disk : Disk) (pl : IPluginList) (filePath : QString) :
    GamebryoGamePlugins × Disk :=
  writeList encs hashFn sorter self disk pl filePath true

/-- The method `GamebryoGamePlugins::writePluginLists`; `now` is
`QDateTime::currentDateTime()`. -/
def writePluginLists (org : Organizer) (encs : Encoders) (hashFn : QByteArray → QByteArray)
    (sorter : StdSort) (now : Nat) (self : GamebryoGamePlugins) (disk : Disk)
    (pl : IPluginList) : GamebryoGamePlugins × Disk :=
  if !self.m_LastRead.isValid then (self, disk)
  else
    let r₁ := writePluginList encs hashFn sorter self disk pl (pluginsPath org)
    let r₂ := writeLoadOrderList encs hashFn sorter r₁.1 r₁.2 pl (loadOrderPath org)
    ({ r₂.1 with m_LastRead := .msecs now }, r₂.2)

/-! ## Concrete collaborators, used to run the model -/

/-- Strict weak orderings are negatively transitive. -/
theorem StrictWeakOrder.neg_trans {α : Type} {comp : α → α → Bool}
    (h : StrictWeakOrder comp) (a b c : α) (hab : comp b a = false) (hbc : comp c b = false) :
    comp c a = false := by
  by_contra hca
  have hca : comp c a = true := by simpa using hca
  have h1 : comp b c = false := by
    by_contra hbc2
    have hbc2 : comp b c = true := by simpa using hbc2
    have := h.trans b c a hbc2 hca
    simp [this] at hab
  have h2 : comp a b = false := by
    by_contra hab2
    have hab2 : comp a b = true := by simpa using hab2
    have := h.trans c a b hca hab2
    simp [this] at hbc
  have := (h.incomp_trans a b c h2 hab h1 hbc).2
  simp [this] at hca

/-- Strict weak orderings are asymmetric. -/
theorem StrictWeakOrder.asymm {α : Type} {comp : α → α → Bool}
    (h : StrictWeakOrder comp) (a b : α) (hab : comp a b = true) : comp b a = false := by
  by_contra hba
  have hba : comp b a = true := by simpa using hba
  have := h.trans a b a hab hba
  simp [h.irrefl a] at this

/-- An insertion sort, one algorithm that meets the contract of `std::sort`. -/
def insertionSorter : StdSort where
  sort comp l := l.insertionSort (fun a b => comp b a = false)
  perm comp l := List.perm_insertionSort _ l
  sorted comp l h := by
    haveI : IsTotal QString (fun a b => comp b a = false) :=
      ⟨fun a b => by
        cases hba : comp b a
        · exact Or.inl rfl
        · exact Or.inr (h.asymm b a hba)⟩
    haveI : IsTrans QString (fun a b => comp b a = false) :=
      ⟨fun a b c hab hbc => h.neg_trans a b c hab hbc⟩
    exact List.sorted_insertionSort _ l

/-- An encoder for a single-byte legacy code page restricted to ASCII: a character outside
it is written as `?` and raises the error, which stays set once raised. -/
def asciiEncoder : QStringEncoder where
  State := Bool
  init := false
  encode st s :=
    (s.map (fun c => if c.toNat < 128 then c else '?'), st || s.any (fun c => 128 ≤ c.toNat))
  hasError st := st

/-- An encoder that represents every string and never reports an error. -/
def plainEncoder : QStringEncoder where
  State := Unit
  init := ()
  encode _ s := (s, ())
  hasError _ := false

/-! ## Notions used to state the properties -/

/-- The containers `a` and `b` differ at most in the states of their plugins. -/
def SameFrame (a b : IPluginList) : Prop :=
  a.pluginNames = b.pluginNames ∧ a.priority = b.priority ∧ a.origin = b.origin ∧
    a.loadOrder = b.loadOrder

/-- The names on the lines of `plugins.txt` that are neither empty nor a comment, in the
order of the file. -/
def activeNames (content : QByteArray) : List QString :=
  ((readLines content).map lineName).filter (fun n => decide (n.length > 0))

/-- The names that `readPluginList` sorts, after the sort. -/
def sortedRemainder (org : Organizer) (fs : FileSystem) (sorter : StdSort)
    (pl : IPluginList) : List QString :=
  sorter.sort (fileTimeLess org fs (forcePrimaryActive org.primaryPlugins pl))
    (removePrimary org.primaryPlugins (forcePrimaryActive org.primaryPlugins pl).pluginNames)

/-- The lines that the callback of `readLoadOrderList` appends, for a given content of
`pluginLookup`. -/
def keptLines : List QString → List QString → List QString
  | _, [] => []
  | lookup, s :: rest =>
    if lookup.contains (toLower s) then keptLines lookup rest
    else s :: keptLines (s :: lookup) rest

/-! ## A small profile, used to run the model -/

/-- An organizer whose game has the primary plugins `A` and `B`; no plugin belongs to a
mod, so every plugin resolves into the data directory. -/
def demoOrganizer : Organizer :=
  { profilePath := "profile".toList
    primaryPlugins := ["A".toList, "B".toList]
    dataDirectory := "data".toList
    getMod := fun _ => none }

/-- A file system in which `data/C` is older than `data/D`; the two arguments are the lines
of `loadorder.txt` and the content of `plugins.txt`. -/
def demoFileSystem (orderLines : Option (List QString)) (active : Option QByteArray) :
    FileSystem :=
  { fileExists := fun p => p = "profile/plugins.txt".toList ∨ p = "profile/loadorder.txt".toList
    lastModified := fun p =>
      if p = "data/C".toList then .msecs 1 else if p = "data/D".toList then .msecs 2
      else .invalid
    readAll := fun p => if p = "profile/plugins.txt".toList then active else none
    forEachLine := fun p => if p = "profile/loadorder.txt".toList then orderLines else none
    absoluteFilePath := fun dir name => dir ++ "/".toList ++ name }

/-- A container with the plugins `A`, `B`, `C`, `D`, all of them inactive. -/
def demoPluginList : IPluginList :=
  { pluginNames := ["A".toList, "B".toList, "C".toList, "D".toList]
    state := fun _ => STATE_INACTIVE
    priority := fun n =>
      if n = "A".toList then 0 else if n = "B".toList then 1 else if n = "C".toList then 2
      else 3
    origin := fun _ => []
    loadOrder := [] }

/-- A container that tracks `C` and remembers `Gone.esp`, a plugin that is missing. -/
def missingPluginList : IPluginList :=
  { pluginNames := ["C".toList]
    state := fun n => if n = "Gone.esp".toList then STATE_MISSING else STATE_INACTIVE
    priority := fun _ => 0
    origin := fun _ => []
    loadOrder := [] }

/-- A container whose only plugin is active and has a name outside ASCII. -/
def accentPluginList : IPluginList :=
  { pluginNames := ["é.esp".toList]
    state := fun _ => STATE_ACTIVE
    priority := fun _ => 0
    origin := fun _ => []
    loadOrder := [] }

/-- The encoders of the demo: UTF-8 represents every name, the system code page only
ASCII. -/
def demoEncoders : Encoders := { utf8 := plainEncoder, system := asciiEncoder }

/-! ## Further notions: written lines, calls, a second sort, the line reader -/

/-- The method `GamebryoGamePlugins::lightPluginsAreSupported`. -/
def lightPluginsAreSupported : Bool := false

/-- The bytes of one line per name, each name encoded and followed by the line terminator,
with the state of the encoder carried from one name to the next. -/
def encodeLines (encoder : QStringEncoder) : encoder.State → List QString → QByteArray
  | _, [] => []
  | st, n :: rest =>
    (encoder.encode st n).1 ++ crlf ++ encodeLines encoder (encoder.encode st n).2 rest

/-- A public call on an instance, other than `readPluginLists`. -/
inductive Call where
  | writePluginLists (pl : IPluginList) (now : Nat) : Call
  | getLoadOrder (fs : FileSystem) (pl : IPluginList) : Call
  | lightPluginsAreSupported : Call

/-- The effect of a call on the fields of the instance and on the files: `getLoadOrder` and
`lightPluginsAreSupported` assign no field and write no file. -/
def runCall (org : Organizer) (encs : Encoders) (hashFn : QByteArray → QByteArray)
    (sorter : StdSort) (st : GamebryoGamePlugins × Disk) : Call → GamebryoGamePlugins × Disk
  | .writePluginLists pl now => writePluginLists org encs hashFn sorter now st.1 st.2 pl
  | .getLoadOrder _ _ => st
  | .lightPluginsAreSupported => st

/-- A second algorithm that meets the contract of `std::sort`: the insertion sort of the
reversed input. It orders equivalent elements the other way round. -/
def reverseSorter : StdSort where
  sort comp l := insertionSorter.sort comp l.reverse
  perm comp l := (insertionSorter.perm comp l.reverse).trans (List.reverse_perm l)
  sorted comp l h := insertionSorter.sorted comp l.reverse h

/-- The bytes that end a line for the line reader. -/
def isLineBreak (c : Char) : Bool := c = '\n' || c = '\r'

/-- The pieces of a content between line breaks; the first argument holds the bytes of the
piece being read. -/
def splitAtBreaks : QByteArray → QByteArray → List QByteArray
  | cur, [] => [cur]
  | cur, c :: rest =>
    if isLineBreak c then cur :: splitAtBreaks [] rest else splitAtBreaks (cur ++ [c]) rest

/-- Modelled from the spec: `MOBase::forEachLineInFile`, which is not part of the
repository, on the content of a file that can be opened. Following the file format of §6
(one plugin name per line, `\r\n` terminators, comment lines starting with `#`), the content
is cut at carriage returns and line feeds, white space around a line is dropped, and empty
lines and comment lines are skipped; the remaining lines are handed to the callback. -/
def forEachLineInFile (content : QByteArray) : List QString :=
  ((splitAtBreaks [] content).map trimmed).filter
    (fun l => decide (l ≠ []) && decide (l.head? ≠ some '#'))

/-- A container with the active plugins `A` and `é.esp`, in this order of priority. -/
def mixedPluginList : IPluginList :=
  { pluginNames := ["A".toList, "é.esp".toList]
    state := fun _ => STATE_ACTIVE
    priority := fun n => if n = "A".toList then 0 else 1
    origin := fun _ => []
    loadOrder := [] }

/-- A container with the active plugins `A`, `é.esp` and `B`, in this order of priority. -/
def trailingPluginList : IPluginList :=
  { pluginNames := ["A".toList, "é.esp".toList, "B".toList]
    state := fun _ => STATE_ACTIVE
    priority := fun n => if n = "A".toList then 0 else if n = "B".toList then 2 else 1
    origin := fun _ => []
    loadOrder := [] }

/-- A container with the plugins `E` and `F`, whose files have the same modification
time in `demoFileSystem`. -/
def tiedPluginList : IPluginList :=
  { pluginNames := ["E".toList, "F".toList]
    state := fun _ => STATE_INACTIVE
    priority := fun n => if n = "E".toList then 0 else 1
    origin := fun _ => []
    loadOrder := [] }

/-- A container with no plugin at all. -/
def emptyPluginList : IPluginList :=
  { pluginNames := []
    state := fun _ => STATE_MISSING
    priority := fun _ => 0
    origin := fun _ => []
    loadOrder := [] }

/-- A container with the plugins `A`, `B` and a third plugin of the given name, in this
order of priority. -/
def thirdPluginList (third : QString) : IPluginList :=
  { pluginNames := ["A".toList, "B".toList, third]
    state := fun _ => STATE_INACTIVE
    priority := fun n => if n = "A".toList then 0 else if n = "B".toList then 1 else 2
    origin := fun _ => []
    loadOrder := [] }

/-- An instance that has read its files at the instant 5 and has committed nothing yet. -/
def syncedInstance : GamebryoGamePlugins :=
  { m_LastRead := .msecs 5, m_LastSaveHash := fun _ => [] }

/-- The text of the header line, without its line terminator. -/
def headerText : QString := "# This file was automatically generated by Mod Organizer.".toList

/-- The bytes of one line per name: the name as it is, followed by the line terminator. -/
def plainLines : List QString → QByteArray
  | [] => []
  | n :: rest => n ++ crlf ++ plainLines rest

/-- The test of the line reader on a trimmed line: it is neither empty nor a comment. -/
def isNameLine (l : QByteArray) : Bool := decide (l ≠ []) && decide (l.head? ≠ some '#')

/-! ## Auxiliary facts -/

theorem char_toLower_idem (c : Char) : c.toLower.toLower = c.toLower := by
  by_cases h : c.toNat ≥ 65 ∧ c.toNat ≤ 90
  · have key : ∀ n : Fin 26,
        (Char.ofNat (n.val + 65)).toLower.toLower = (Char.ofNat (n.val + 65)).toLower := by
      decide
    have hc : c = Char.ofNat ((⟨c.toNat - 65, by omega⟩ : Fin 26).val + 65) := by
      have : c.toNat - 65 + 65 = c.toNat := by omega
      simp [this]
    rw [hc]
    exact key _
  · have h1 : c.toLower = c := by
      unfold Char.toLower
      simp only [h, if_false]
    rw [h1, h1]

theorem toLower_idem (s : QString) : toLower (toLower s) = toLower s := by
  unfold toLower
  rw [List.map_map]
  apply List.map_congr_left
  intro c _
  exact char_toLower_idem c

theorem ciEq_iff (a b : QString) : ciEq a b = true ↔ toLower a = toLower b := by
  unfold ciEq
  exact beq_iff_eq

theorem ciEq_refl (a : QString) : ciEq a a = true := (ciEq_iff a a).2 rfl

theorem ciEq_comm (a b : QString) : ciEq a b = ciEq b a := by
  rw [Bool.eq_iff_iff, ciEq_iff, ciEq_iff]
  exact eq_comm

theorem containsCI_iff (l : List QString) (s : QString) :
    containsCI l s = true ↔ ∃ x ∈ l, toLower x = toLower s := by
  unfold containsCI
  rw [List.any_eq_true]
  constructor
  · rintro ⟨x, hx, h⟩
    exact ⟨x, hx, (ciEq_iff x s).1 h⟩
  · rintro ⟨x, hx, h⟩
    exact ⟨x, hx, (ciEq_iff x s).2 h⟩

theorem containsCI_of_mem {l : List QString} {s : QString} (h : s ∈ l) :
    containsCI l s = true :=
  (containsCI_iff l s).2 ⟨s, h, rfl⟩

/-- A property kept by every round of a loop holds when the loop ends. -/
theorem foldl_keeps {α β : Type} (P : β → Prop) (f : β → α → β)
    (hf : ∀ b a, P b → P (f b a)) : ∀ (l : List α) (b : β), P b → P (l.foldl f b)
  | [], _, hb => hb
  | a :: l, b, hb => foldl_keeps P f hf l (f b a) (hf b a hb)


theorem SameFrame.refl (a : IPluginList) : SameFrame a a := ⟨rfl, rfl, rfl, rfl⟩

theorem SameFrame.trans {a b c : IPluginList} (h₁ : SameFrame a b) (h₂ : SameFrame b c) :
    SameFrame a c :=
  ⟨h₁.1.trans h₂.1, h₁.2.1.trans h₂.2.1, h₁.2.2.1.trans h₂.2.2.1, h₁.2.2.2.trans h₂.2.2.2⟩

theorem setState_frame (pl : IPluginList) (n : QString) (s : PluginStates) :
    SameFrame pl (pl.setState n s) := ⟨rfl, rfl, rfl, rfl⟩

theorem setState_state (pl : IPluginList) (n m : QString) (s : PluginStates) :
    (pl.setState n s).state m = if ciEq m n then s else pl.state m := rfl

/-- A loop that only calls `setState` leaves everything but the states as it was. -/
theorem foldl_frame {α : Type} (f : IPluginList → α → IPluginList)
    (hf : ∀ pl a, SameFrame pl (f pl a)) (l : List α) (pl : IPluginList) :
    SameFrame pl (l.foldl f pl) :=
  foldl_keeps (fun b => SameFrame pl b) f (fun b a hb => hb.trans (hf b a)) l pl
    (SameFrame.refl pl)

/-- The state of a name after `setState` was called with `s` on every name of a list. -/
theorem foldl_setState_all (s : PluginStates) (m : QString) :
    ∀ (l : List QString) (pl : IPluginList),
      (l.foldl (fun pl n => pl.setState n s) pl).state m =
        if l.any (fun n => ciEq m n) then s else pl.state m
  | [], pl => by simp
  | n :: l, pl => by
    rw [List.foldl_cons, foldl_setState_all s m l, setState_state, List.any_cons]
    by_cases h1 : ciEq m n = true <;> by_cases h2 : (l.any fun n => ciEq m n) = true <;>
      simp [h1, h2]

/-- The state of a name after `setState` was called with `s` on the names of a list that
pass a test. -/
theorem foldl_setState_if (s : PluginStates) (c : QString → Bool) (m : QString) :
    ∀ (l : List QString) (pl : IPluginList),
      (l.foldl (fun pl n => if c n then pl.setState n s else pl) pl).state m =
        if l.any (fun n => c n && ciEq m n) then s else pl.state m
  | [], pl => by simp
  | n :: l, pl => by
    rw [List.foldl_cons, foldl_setState_if s c m l, List.any_cons]
    by_cases h0 : c n = true <;> by_cases h1 : ciEq m n = true <;>
      by_cases h2 : (l.any fun n => c n && ciEq m n) = true <;>
      simp [h0, h1, h2, setState_state]

/-! ### The first loop of `readPluginList` -/

theorem forcePrimaryActive_frame (primary : List QString) (pl : IPluginList) :
    SameFrame pl (forcePrimaryActive primary pl) := by
  unfold forcePrimaryActive
  apply foldl_frame
  intro pl a
  split
  · exact setState_frame pl a _
  · exact SameFrame.refl pl

theorem forcePrimaryActive_keeps_active (p : QString) (primary : List QString)
    (pl : IPluginList) (h : pl.state p = STATE_ACTIVE) :
    (forcePrimaryActive primary pl).state p = STATE_ACTIVE := by
  unfold forcePrimaryActive
  refine foldl_keeps (fun b => b.state p = STATE_ACTIVE) _ ?_ primary pl h
  intro b a hb
  show (if b.state a ≠ STATE_MISSING then b.setState a STATE_ACTIVE else b).state p = _
  split
  · rw [setState_state]; split <;> simp [hb]
  · exact hb

theorem forcePrimaryActive_active (p : QString) :
    ∀ (primary : List QString) (pl : IPluginList), p ∈ primary →
      pl.state p ≠ STATE_MISSING → (forcePrimaryActive primary pl).state p = STATE_ACTIVE
  | [], _, hp, _ => by simp at hp
  | q :: rest, pl, hp, hs => by
    have hstep : forcePrimaryActive (q :: rest) pl =
        forcePrimaryActive rest
          (if pl.state q ≠ STATE_MISSING then pl.setState q STATE_ACTIVE else pl) := rfl
    rw [hstep]
    by_cases hpq : p = q
    · subst hpq
      apply forcePrimaryActive_keeps_active
      rw [if_pos hs, setState_state, ciEq_refl]
      rfl
    · have hmem : p ∈ rest := by
        rcases List.mem_cons.1 hp with h | h
        · exact absurd h hpq
        · exact h
      apply forcePrimaryActive_active p rest _ hmem
      split
      · rw [setState_state]
        split
        · simp
        · exact hs
      · exact hs

/-! ### The second loop of `readPluginList` -/

theorem removePrimary_fold (primary : List QString) :
    ∀ (clone acc : List QString),
      clone.foldl
        (fun acc plugin => if containsCI primary plugin then removeAll acc plugin else acc)
        acc =
      acc.filter (fun x => !(decide (x ∈ clone) && containsCI primary x))
  | [], acc => by simp
  | c :: clone, acc => by
    rw [List.foldl_cons, removePrimary_fold primary clone]
    by_cases hc : containsCI primary c = true
    · rw [if_pos hc]
      unfold removeAll
      rw [List.filter_filter]
      apply List.filter_congr
      intro x _
      by_cases hx : x = c
      · subst hx; simp [hc]
      · simp [hx]
    · rw [if_neg hc]
      apply List.filter_congr
      intro x _
      by_cases hx : x = c
      · subst hx
        have : containsCI primary x = false := by simpa using hc
        simp [this]
      · simp [hx]

theorem removePrimary_eq_filter (primary plugins : List QString) :
    removePrimary primary plugins = plugins.filter (fun n => !containsCI primary n) := by
  unfold removePrimary
  rw [removePrimary_fold]
  apply List.filter_congr
  intro x hx
  simp [hx]

/-! ### The loop over `plugins.txt` -/

theorem readActive_fold :
    ∀ (lines : List QByteArray) (pl : IPluginList) (acc : List QString),
      lines.foldl
        (fun (acc : IPluginList × List QString) line =>
          let pluginName := lineName line
          if pluginName.length > 0 then
            (acc.1.setState pluginName STATE_ACTIVE, acc.2 ++ [pluginName])
          else acc)
        (pl, acc) =
      (((lines.map lineName).filter (fun n => decide (n.length > 0))).foldl
          (fun pl n => pl.setState n STATE_ACTIVE) pl,
        acc ++ (lines.map lineName).filter (fun n => decide (n.length > 0)))
  | [], pl, acc => by simp
  | line :: lines, pl, acc => by
    rw [List.foldl_cons]
    by_cases h : (lineName line).length > 0
    · simp only [h, if_true]
      rw [readActive_fold lines]
      simp [List.filter_cons, h]
    · simp only [h, if_false]
      rw [readActive_fold lines]
      simp [List.filter_cons, h]

theorem readActive_eq (content : QByteArray) (pl : IPluginList) :
    readActive (readLines content) pl =
      ((activeNames content).foldl (fun pl n => pl.setState n STATE_ACTIVE) pl,
        activeNames content) := by
  unfold readActive activeNames
  rw [readActive_fold]
  simp

/-! ### The comparators are strict weak orderings -/

theorem QDateTime.lt_strictWeakOrder : StrictWeakOrder QDateTime.lt where
  irrefl a := by cases a <;> simp [QDateTime.lt, QDateTime.isValid]
  trans a b c := by
    cases a <;> cases b <;> cases c <;> simp [QDateTime.lt, QDateTime.isValid]
    omega
  incomp_trans a b c := by
    cases a <;> cases b <;> cases c <;> simp [QDateTime.lt, QDateTime.isValid]
    omega

theorem StrictWeakOrder.comap {α β : Type} {comp : β → β → Bool} (h : StrictWeakOrder comp)
    (key : α → β) : StrictWeakOrder (fun a b => comp (key a) (key b)) where
  irrefl a := h.irrefl (key a)
  trans a b c := h.trans (key a) (key b) (key c)
  incomp_trans a b c := h.incomp_trans (key a) (key b) (key c)

theorem fileTimeLess_strictWeakOrder (org : Organizer) (fs : FileSystem) (pl : IPluginList) :
    StrictWeakOrder (fileTimeLess org fs pl) :=
  QDateTime.lt_strictWeakOrder.comap (resolvedTime org fs pl)

theorem priorityLess_strictWeakOrder (pl : IPluginList) :
    StrictWeakOrder (priorityLess pl) where
  irrefl a := by simp [priorityLess]
  trans a b c := by simp only [priorityLess, decide_eq_true_eq]; omega
  incomp_trans a b c := by
    simp only [priorityLess, decide_eq_false_iff_not]; omega

theorem resolvedTime_frame (org : Organizer) (fs : FileSystem) {a b : IPluginList}
    (h : SameFrame a b) (n : QString) : resolvedTime org fs b n = resolvedTime org fs a n := by
  unfold resolvedTime resolvedPath
  rw [h.2.2.1]

/-! ### The shape of the result of `readPluginList` -/

theorem readPluginList_fst (org : Organizer) (fs : FileSystem) (sorter : StdSort)
    (pl : IPluginList) :
    (readPluginList org fs sorter pl).1 = org.primaryPlugins ++ sortedRemainder org fs sorter pl := by
  unfold readPluginList sortedRemainder
  simp only []
  split <;> rfl

theorem readPluginList_snd_none (org : Organizer) (fs : FileSystem) (sorter : StdSort)
    (pl : IPluginList)
    (h : fs.readAll (pluginsPath org) = none ∨ fs.readAll (pluginsPath org) = some []) :
    (readPluginList org fs sorter pl).2 =
      (sortedRemainder org fs sorter pl).foldl
        (fun pl pluginName => pl.setState pluginName STATE_INACTIVE)
        (forcePrimaryActive org.primaryPlugins pl) := by
  unfold readPluginList sortedRemainder
  rcases h with h | h <;> simp [h]

theorem readPluginList_snd_some (org : Organizer) (fs : FileSystem) (sorter : StdSort)
    (pl : IPluginList) (content : QByteArray)
    (h : fs.readAll (pluginsPath org) = some content) (hne : content ≠ []) :
    (readPluginList org fs sorter pl).2 =
      (sortedRemainder org fs sorter pl).foldl
        (fun pl pluginName =>
          if !containsCI (activeNames content) pluginName then
            pl.setState pluginName STATE_INACTIVE
          else pl)
        ((activeNames content).foldl (fun pl n => pl.setState n STATE_ACTIVE)
          (forcePrimaryActive org.primaryPlugins pl)) := by
  unfold readPluginList sortedRemainder
  have hlen : ¬ content.length = 0 := by
    intro h0
    exact hne (List.length_eq_zero.1 h0)
  simp only [h, hlen, if_false, readActive_eq]

theorem mem_sortedRemainder (org : Organizer) (fs : FileSystem) (sorter : StdSort)
    (pl : IPluginList) (n : QString) :
    n ∈ sortedRemainder org fs sorter pl ↔
      n ∈ pl.pluginNames ∧ containsCI org.primaryPlugins n = false := by
  unfold sortedRemainder
  rw [(sorter.perm _ _).mem_iff, removePrimary_eq_filter,
    ← (forcePrimaryActive_frame org.primaryPlugins pl).1]
  simp

theorem readPluginList_frame (org : Organizer) (fs : FileSystem) (sorter : StdSort)
    (pl : IPluginList) : SameFrame pl (readPluginList org fs sorter pl).2 := by
  have h₁ := forcePrimaryActive_frame org.primaryPlugins pl
  by_cases h : fs.readAll (pluginsPath org) = none ∨ fs.readAll (pluginsPath org) = some []
  · rw [readPluginList_snd_none org fs sorter pl h]
    exact h₁.trans (foldl_frame _ (fun b a => setState_frame b a _) _ _)
  · have hc : ∃ content, fs.readAll (pluginsPath org) = some content ∧ content ≠ [] := by
      cases hr : fs.readAll (pluginsPath org) with
      | none => exact absurd (Or.inl hr) h
      | some content =>
        refine ⟨content, rfl, ?_⟩
        intro hnil
        exact h (Or.inr (by rw [hr, hnil]))
    obtain ⟨content, hr, hne⟩ := hc
    rw [readPluginList_snd_some org fs sorter pl content hr hne]
    refine (h₁.trans (foldl_frame _ (fun b a => setState_frame b a _) _ _)).trans
      (foldl_frame _ ?_ _ _)
    intro b a
    split
    · exact setState_frame b a _
    · exact SameFrame.refl b

/-! ### The callback of `readLoadOrderList` -/

theorem contains_iff_mem (l : List QString) (s : QString) : l.contains s = true ↔ s ∈ l := by
  simp [List.contains]

theorem loadOrderCallback_fold :
    ∀ (lines lookup names : List QString),
      (lines.foldl loadOrderCallback (lookup, names)).2 = names ++ keptLines lookup lines
  | [], lookup, names => by simp [keptLines]
  | s :: rest, lookup, names => by
    rw [List.foldl_cons]
    by_cases h : lookup.contains (toLower s) = true
    · have hm : toLower s ∈ lookup := (contains_iff_mem _ _).1 h
      have hstep : loadOrderCallback (lookup, names) s = (lookup, names) := by
        simp [loadOrderCallback, hm]
      have hkept : keptLines lookup (s :: rest) = keptLines lookup rest := by
        simp [keptLines, hm]
      rw [hstep, hkept]
      exact loadOrderCallback_fold rest lookup names
    · have hm : toLower s ∉ lookup := fun hm => h ((contains_iff_mem _ _).2 hm)
      have hstep : loadOrderCallback (lookup, names) s = (s :: lookup, names ++ [s]) := by
        simp [loadOrderCallback, hm]
      have hkept : keptLines lookup (s :: rest) = s :: keptLines (s :: lookup) rest := by
        simp [keptLines, hm]
      rw [hstep, hkept, loadOrderCallback_fold rest (s :: lookup) (names ++ [s])]
      simp

theorem readLoadOrderList_some (org : Organizer) (fs : FileSystem) (sorter : StdSort)
    (pl : IPluginList) (filePath : QString) (lines : List QString)
    (h : fs.forEachLine filePath = some lines) :
    readLoadOrderList org fs sorter pl filePath =
      (org.primaryPlugins ++ keptLines (org.primaryPlugins.map toLower) lines, pl) := by
  unfold readLoadOrderList
  simp only [h]
  rw [loadOrderCallback_fold]

theorem readLoadOrderList_none (org : Organizer) (fs : FileSystem) (sorter : StdSort)
    (pl : IPluginList) (filePath : QString) (h : fs.forEachLine filePath = none) :
    readLoadOrderList org fs sorter pl filePath = readPluginList org fs sorter pl := by
  unfold readLoadOrderList
  simp only [h]

/-- A kept line is a line of the file whose lower-case form was not in the lookup. -/
theorem keptLines_not_mem :
    ∀ (lines lookup : List QString) (s : QString), s ∈ keptLines lookup lines →
      s ∈ lines ∧ toLower s ∉ lookup
  | [], _, s, hs => by simp [keptLines] at hs
  | t :: rest, lookup, s, hs => by
    unfold keptLines at hs
    by_cases h : lookup.contains (toLower t) = true
    · rw [if_pos h] at hs
      have := keptLines_not_mem rest lookup s hs
      exact ⟨List.mem_cons_of_mem _ this.1, this.2⟩
    · rw [if_neg h] at hs
      rcases List.mem_cons.1 hs with hst | hst
      · subst hst
        refine ⟨List.mem_cons_self _ _, ?_⟩
        intro hmem
        exact h ((contains_iff_mem _ _).2 hmem)
      · have := keptLines_not_mem rest (t :: lookup) s hst
        exact ⟨List.mem_cons_of_mem _ this.1, fun hmem => this.2 (List.mem_cons_of_mem _ hmem)⟩

theorem not_containsCI_of_not_mem_map {primary : List QString} {s : QString}
    (h : toLower s ∉ primary.map toLower) : containsCI primary s = false := by
  by_contra hc
  have hc : containsCI primary s = true := by simpa using hc
  obtain ⟨x, hx, hxs⟩ := (containsCI_iff primary s).1 hc
  exact h (hxs ▸ List.mem_map_of_mem toLower hx)

/-- When the lines outside the primary set are pairwise different ignoring case, the
callback keeps exactly those lines. -/
theorem keptLines_eq_filter (primary : List QString) :
    ∀ (lines lookup : List QString),
      (∀ x ∈ primary.map toLower, x ∈ lookup) →
      (∀ x ∈ lookup, x ∈ primary.map toLower ∨
        ∀ s ∈ lines, containsCI primary s = false → toLower x ≠ toLower s) →
      (lines.filter (fun s => !containsCI primary s)).Pairwise (fun a b => ciEq a b = false) →
      keptLines lookup lines = lines.filter (fun s => !containsCI primary s)
  | [], _, _, _, _ => by simp [keptLines]
  | s :: rest, lookup, h₁, h₂, hp => by
    unfold keptLines
    by_cases hc : containsCI primary s = true
    · obtain ⟨x, hx, hxs⟩ := (containsCI_iff primary s).1 hc
      have hmem : toLower s ∈ lookup := h₁ _ (hxs ▸ List.mem_map_of_mem toLower hx)
      rw [if_pos ((contains_iff_mem _ _).2 hmem)]
      have hf : (s :: rest).filter (fun s => !containsCI primary s) =
          rest.filter (fun s => !containsCI primary s) := by
        simp [List.filter_cons, hc]
      rw [hf] at hp ⊢
      apply keptLines_eq_filter primary rest lookup h₁ _ hp
      intro x hx
      rcases h₂ x hx with h | h
      · exact Or.inl h
      · exact Or.inr (fun t ht => h t (List.mem_cons_of_mem _ ht))
    · have hc : containsCI primary s = false := by simpa using hc
      have hnot : ¬ lookup.contains (toLower s) = true := by
        intro hmem
        have hmem := (contains_iff_mem _ _).1 hmem
        rcases h₂ _ hmem with h | h
        · obtain ⟨p, hp1, hp2⟩ := List.mem_map.1 h
          have : containsCI primary s = true := (containsCI_iff primary s).2 ⟨p, hp1, hp2⟩
          simp [hc] at this
        · exact h s (List.mem_cons_self _ _) hc (toLower_idem s)
      rw [if_neg hnot]
      have hf : (s :: rest).filter (fun s => !containsCI primary s) =
          s :: rest.filter (fun s => !containsCI primary s) := by
        simp [List.filter_cons, hc]
      rw [hf] at hp ⊢
      rw [List.pairwise_cons] at hp
      congr 1
      apply keptLines_eq_filter primary rest (s :: lookup) _ _ hp.2
      · intro x hx
        exact List.mem_cons_of_mem _ (h₁ x hx)
      · intro x hx
        rcases List.mem_cons.1 hx with hxs | hxl
        · subst hxs
          refine Or.inr (fun t ht htc => ?_)
          have := hp.1 t (List.mem_filter.2 ⟨ht, by simp [htc]⟩)
          intro heq
          rw [(ciEq_iff x t).2 heq] at this
          simp at this
        · rcases h₂ x hxl with h | h
          · exact Or.inl h
          · exact Or.inr (fun t ht => h t (List.mem_cons_of_mem _ ht))

/-! ### The counter of `writeList` -/

theorem writeStep_count (encoder : QStringEncoder) (pl : IPluginList) (loadOrder : Bool)
    (buf : WriteBuffer encoder.State) (n : QString) :
    (writeStep encoder pl loadOrder buf n).writtenCount =
      buf.writtenCount + if included pl loadOrder n then 1 else 0 := by
  unfold writeStep
  by_cases h : included pl loadOrder n = true
  · simp only [h, if_true]
    split <;> rfl
  · simp only [h, if_false]
    rfl

theorem foldl_writeStep_count (encoder : QStringEncoder) (pl : IPluginList)
    (loadOrder : Bool) :
    ∀ (l : List QString) (buf : WriteBuffer encoder.State),
      (l.foldl (writeStep encoder pl loadOrder) buf).writtenCount =
        buf.writtenCount + (l.filter (included pl loadOrder)).length
  | [], buf => by simp
  | n :: l, buf => by
    rw [List.foldl_cons, foldl_writeStep_count encoder pl loadOrder l, writeStep_count]
    by_cases h : included pl loadOrder n = true
    · simp [List.filter_cons, h]
      omega
    · simp [List.filter_cons, h]

theorem writeBuffer_count (encs : Encoders) (sorter : StdSort) (pl : IPluginList)
    (loadOrder : Bool) :
    (writeBuffer encs sorter pl loadOrder).writtenCount =
      ((sorter.sort (priorityLess pl) pl.pluginNames).filter (included pl loadOrder)).length := by
  unfold writeBuffer
  simp only []
  rw [foldl_writeStep_count]
  simp

/-! ### The content that `writeList` writes -/

theorem writeStep_skip (encoder : QStringEncoder) (pl : IPluginList) (loadOrder : Bool)
    (buf : WriteBuffer encoder.State) (n : QString) (h : included pl loadOrder n = false) :
    writeStep encoder pl loadOrder buf n = buf := by
  unfold writeStep
  simp [h]

theorem writeStep_ok (encoder : QStringEncoder) (pl : IPluginList) (loadOrder : Bool)
    (buf : WriteBuffer encoder.State) (n : QString) (h : included pl loadOrder n = true)
    (herr : encoder.hasError buf.enc = false) :
    writeStep encoder pl loadOrder buf n =
      { file := buf.file ++ (encoder.encode buf.enc n).1 ++ crlf
        enc := (encoder.encode buf.enc n).2
        invalidFileNames := buf.invalidFileNames
        writtenCount := buf.writtenCount + 1 } := by
  unfold writeStep
  simp [h, herr]

theorem foldl_writeStep_file (encoder : QStringEncoder) (pl : IPluginList) (loadOrder : Bool)
    (names : List QString)
    (hnames : ∀ st n, n ∈ names → encoder.hasError st = false →
      encoder.hasError (encoder.encode st n).2 = false) :
    ∀ (l : List QString) (buf : WriteBuffer encoder.State), (∀ n ∈ l, n ∈ names) →
      encoder.hasError buf.enc = false →
      (l.foldl (writeStep encoder pl loadOrder) buf).file =
        buf.file ++ encodeLines encoder buf.enc (l.filter (included pl loadOrder))
  | [], buf, _, _ => by simp [encodeLines]
  | n :: l, buf, hl, hbuf => by
    rw [List.foldl_cons]
    have hrest : ∀ k ∈ l, k ∈ names := fun k hk => hl k (List.mem_cons_of_mem _ hk)
    by_cases h : included pl loadOrder n = true
    · have herr := hnames buf.enc n (hl n (List.mem_cons_self _ _)) hbuf
      rw [writeStep_ok encoder pl loadOrder buf n h hbuf,
        foldl_writeStep_file encoder pl loadOrder names hnames l _ hrest herr]
      simp [List.filter_cons, h, encodeLines]
    · have h : included pl loadOrder n = false := by simpa using h
      rw [writeStep_skip encoder pl loadOrder buf n h,
        foldl_writeStep_file encoder pl loadOrder names hnames l _ hrest hbuf]
      simp [List.filter_cons, h]

theorem writeBuffer_file (encs : Encoders) (sorter : StdSort) (pl : IPluginList)
    (loadOrder : Bool)
    (hheader : (selectEncoder encs loadOrder).hasError
      ((selectEncoder encs loadOrder).encode (selectEncoder encs loadOrder).init header).2 = false)
    (hnames : ∀ st n, n ∈ pl.pluginNames → (selectEncoder encs loadOrder).hasError st = false →
      (selectEncoder encs loadOrder).hasError ((selectEncoder encs loadOrder).encode st n).2 =
        false) :
    (writeBuffer encs sorter pl loadOrder).file =
      ((selectEncoder encs loadOrder).encode (selectEncoder encs loadOrder).init header).1 ++
        encodeLines (selectEncoder encs loadOrder)
          ((selectEncoder encs loadOrder).encode (selectEncoder encs loadOrder).init header).2
          ((sorter.sort (priorityLess pl) pl.pluginNames).filter (included pl loadOrder)) := by
  unfold writeBuffer
  simp only []
  rw [foldl_writeStep_file (selectEncoder encs loadOrder) pl loadOrder pl.pluginNames hnames _ _
    (fun n hn => ((sorter.perm _ _).mem_iff).1 hn) hheader]

/-- The loop of `writeList` only appends to the temporary file. -/
theorem foldl_writeStep_appends (encoder : QStringEncoder) (pl : IPluginList)
    (loadOrder : Bool) :
    ∀ (l : List QString) (buf : WriteBuffer encoder.State),
      ∃ rest, (l.foldl (writeStep encoder pl loadOrder) buf).file = buf.file ++ rest
  | [], buf => ⟨[], by simp⟩
  | n :: l, buf => by
    rw [List.foldl_cons]
    obtain ⟨rest, hrest⟩ := foldl_writeStep_appends encoder pl loadOrder l
      (writeStep encoder pl loadOrder buf n)
    rw [hrest]
    by_cases h : included pl loadOrder n = true
    · by_cases herr : encoder.hasError buf.enc = true
      · refine ⟨crlf ++ rest, ?_⟩
        unfold writeStep
        simp [h, herr]
      · have herr : encoder.hasError buf.enc = false := by simpa using herr
        refine ⟨(encoder.encode buf.enc n).1 ++ crlf ++ rest, ?_⟩
        rw [writeStep_ok encoder pl loadOrder buf n h herr]
        simp
    · have h : included pl loadOrder n = false := by simpa using h
      rw [writeStep_skip encoder pl loadOrder buf n h]
      exact ⟨rest, rfl⟩

/-- When the encoder has no error before the loop of `writeList`, the first included name
is converted and written, followed by the line terminator. -/
theorem foldl_writeStep_first (encoder : QStringEncoder) (pl : IPluginList)
    (loadOrder : Bool) :
    ∀ (l : List QString) (buf : WriteBuffer encoder.State) (n : QString)
      (tail : List QString), encoder.hasError buf.enc = false →
      l.filter (included pl loadOrder) = n :: tail →
      ∃ rest, (l.foldl (writeStep encoder pl loadOrder) buf).file =
        buf.file ++ ((encoder.encode buf.enc n).1 ++ crlf) ++ rest
  | [], _, _, _, _, hfilter => by simp at hfilter
  | x :: l, buf, n, tail, hbuf, hfilter => by
    rw [List.foldl_cons]
    by_cases h : included pl loadOrder x = true
    · rw [List.filter_cons_of_pos h] at hfilter
      have hx : x = n := (List.cons.inj hfilter).1
      subst hx
      obtain ⟨rest, hrest⟩ := foldl_writeStep_appends encoder pl loadOrder l
        (writeStep encoder pl loadOrder buf x)
      rw [hrest, writeStep_ok encoder pl loadOrder buf x h hbuf]
      exact ⟨rest, by simp⟩
    · rw [List.filter_cons_of_neg h] at hfilter
      have h : included pl loadOrder x = false := by simpa using h
      rw [writeStep_skip encoder pl loadOrder buf x h]
      exact foldl_writeStep_first encoder pl loadOrder l buf n tail hbuf hfilter

/-- With pairwise different priorities, the names sorted by `writeList` have strictly
ascending priorities. -/
theorem sorted_priority_strict (sorter : StdSort) (pl : IPluginList)
    (hdistinct : pl.pluginNames.Pairwise (fun a b => pl.priority a ≠ pl.priority b)) :
    (sorter.sort (priorityLess pl) pl.pluginNames).Pairwise
      (fun a b => pl.priority a < pl.priority b) := by
  have hsorted := sorter.sorted (priorityLess pl) pl.pluginNames (priorityLess_strictWeakOrder pl)
  have hne : (sorter.sort (priorityLess pl) pl.pluginNames).Pairwise
      (fun a b => pl.priority a ≠ pl.priority b) :=
    (sorter.perm (priorityLess pl) pl.pluginNames).symm.pairwise hdistinct
      (fun h => Ne.symm h)
  refine List.Pairwise.imp₂ ?_ hsorted hne
  intro a b hle hneq
  simp only [priorityLess, decide_eq_false_iff_not] at hle
  omega

/-! ### Pairs in a list -/

theorem pair_sublist_or {a b : QString} :
    ∀ {l : List QString}, a ∈ l → b ∈ l → a ≠ b → List.Sublist [a, b] l ∨ List.Sublist [b, a] l
  | [], ha, _, _ => by simp at ha
  | x :: t, ha, hb, hab => by
    by_cases hxa : x = a
    · subst hxa
      have hbt : b ∈ t := by
        rcases List.mem_cons.1 hb with h | h
        · exact absurd h.symm hab
        · exact h
      exact Or.inl (List.Sublist.cons₂ _ (List.singleton_sublist.2 hbt))
    · by_cases hxb : x = b
      · subst hxb
        have hat : a ∈ t := by
          rcases List.mem_cons.1 ha with h | h
          · exact absurd h.symm hxa
          · exact h
        exact Or.inr (List.Sublist.cons₂ _ (List.singleton_sublist.2 hat))
      · have hat : a ∈ t := by
          rcases List.mem_cons.1 ha with h | h
          · exact absurd h.symm hxa
          · exact h
        have hbt : b ∈ t := by
          rcases List.mem_cons.1 hb with h | h
          · exact absurd h.symm hxb
          · exact h
        rcases pair_sublist_or hat hbt hab with h | h
        · exact Or.inl (List.Sublist.cons _ h)
        · exact Or.inr (List.Sublist.cons _ h)

/-- The names after the primary plugins in the result of `readPluginList` are sorted by
the modification time of their resolved files. -/
theorem sortedRemainder_pairwise (org : Organizer) (fs : FileSystem) (sorter : StdSort)
    (pl : IPluginList) :
    (sortedRemainder org fs sorter pl).Pairwise
      (fun a b => QDateTime.lt (resolvedTime org fs pl b) (resolvedTime org fs pl a) = false) := by
  have hframe := forcePrimaryActive_frame org.primaryPlugins pl
  have h := sorter.sorted (fileTimeLess org fs (forcePrimaryActive org.primaryPlugins pl))
    (removePrimary org.primaryPlugins (forcePrimaryActive org.primaryPlugins pl).pluginNames)
    (fileTimeLess_strictWeakOrder org fs _)
  refine List.Pairwise.imp ?_ h
  intro a b hab
  unfold fileTimeLess at hab
  rw [resolvedTime_frame org fs hframe, resolvedTime_frame org fs hframe] at hab
  exact hab

/-! ### The fields that `writeList` and the readers leave alone -/

theorem writeList_lastRead (encs : Encoders) (hashFn : QByteArray → QByteArray)
    (sorter : StdSort) (self : GamebryoGamePlugins) (disk : Disk) (pl : IPluginList)
    (filePath : QString) (loadOrder : Bool) :
    (writeList encs hashFn sorter self disk pl filePath loadOrder).1.m_LastRead =
      self.m_LastRead := by
  unfold writeList
  simp only []
  split <;> rfl

theorem writePluginLists_invalid (org : Organizer) (encs : Encoders)
    (hashFn : QByteArray → QByteArray) (sorter : StdSort) (now : Nat)
    (self : GamebryoGamePlugins) (disk : Disk) (pl : IPluginList)
    (h : self.m_LastRead.isValid = false) :
    writePluginLists org encs hashFn sorter now self disk pl = (self, disk) := by
  unfold writePluginLists
  simp [h]

theorem writePluginLists_valid (org : Organizer) (encs : Encoders)
    (hashFn : QByteArray → QByteArray) (sorter : StdSort) (now : Nat)
    (self : GamebryoGamePlugins) (disk : Disk) (pl : IPluginList)
    (h : self.m_LastRead.isValid = true) :
    (writePluginLists org encs hashFn sorter now self disk pl).1.m_LastRead = .msecs now := by
  unfold writePluginLists
  simp [h]

/-- The test of `readPluginLists` and `getLoadOrder`, in terms of the files. -/
theorem explicit_branch_iff (org : Organizer) (fs : FileSystem) (self : GamebryoGamePlugins) :
    (loadOrderIsNew org fs self || !pluginsIsNew org fs self) = true ↔
      ¬ (self.m_LastRead.isValid = true ∧ fs.fileExists (loadOrderPath org) = true ∧
          QDateTime.lt self.m_LastRead (fs.lastModified (loadOrderPath org)) = false ∧
          QDateTime.lt self.m_LastRead (fs.lastModified (pluginsPath org)) = true) := by
  unfold loadOrderIsNew pluginsIsNew
  cases self.m_LastRead.isValid <;> cases fs.fileExists (loadOrderPath org) <;>
    cases QDateTime.lt self.m_LastRead (fs.lastModified (loadOrderPath org)) <;>
    cases QDateTime.lt self.m_LastRead (fs.lastModified (pluginsPath org)) <;>
    simp

/-- The list that `readPluginLists` passes to `setLoadOrder`. -/
theorem readPluginLists_loadOrder (org : Organizer) (fs : FileSystem) (sorter : StdSort)
    (now : Nat) (self : GamebryoGamePlugins) (pl : IPluginList) :
    (readPluginLists org fs sorter now self pl).2.loadOrder =
      if (loadOrderIsNew org fs self || !pluginsIsNew org fs self) = true then
        (readLoadOrderList org fs sorter pl (loadOrderPath org)).1
      else (readPluginList org fs sorter pl).1 := by
  have hbody : (readPluginLists org fs sorter now self pl).2 =
      if (loadOrderIsNew org fs self || !pluginsIsNew org fs self) = true then
        (readPluginList org fs sorter
          ((readLoadOrderList org fs sorter pl (loadOrderPath org)).2.setLoadOrder
            (readLoadOrderList org fs sorter pl (loadOrderPath org)).1)).2
      else
        (readPluginList org fs sorter pl).2.setLoadOrder (readPluginList org fs sorter pl).1 :=
    rfl
  rw [hbody]
  split
  · exact ((readPluginList_frame org fs sorter _).2.2.2).symm
  · rfl

/-! ### The line reader on the content that `writeList` writes -/

theorem forEachLineInFile_eq (content : QByteArray) :
    forEachLineInFile content = ((splitAtBreaks [] content).map trimmed).filter isNameLine :=
  rfl

theorem splitAtBreaks_line :
    ∀ (n cur rest : QByteArray), (∀ c ∈ n, isLineBreak c = false) →
      splitAtBreaks cur (n ++ crlf ++ rest) = (cur ++ n) :: [] :: splitAtBreaks [] rest
  | [], cur, rest, _ => by
    have hcrlf : ([] : QByteArray) ++ crlf ++ rest = '\r' :: '\n' :: rest := rfl
    rw [hcrlf]
    simp [splitAtBreaks, isLineBreak]
  | c :: n, cur, rest, h => by
    have hc : isLineBreak c = false := h c (List.mem_cons_self _ _)
    have hn : ∀ d ∈ n, isLineBreak d = false := fun d hd => h d (List.mem_cons_of_mem _ hd)
    have hcons : (c :: n) ++ crlf ++ rest = c :: (n ++ crlf ++ rest) := rfl
    rw [hcons, splitAtBreaks]
    simp only [hc, Bool.false_eq_true, if_false]
    rw [splitAtBreaks_line n (cur ++ [c]) rest hn]
    simp

theorem header_eq : header = headerText ++ crlf := by decide

theorem headerText_no_break : ∀ c ∈ headerText, isLineBreak c = false := by decide

theorem headerText_skipped : isNameLine (trimmed headerText) = false := by decide

theorem lines_of_plainLines :
    ∀ (names : List QString), (∀ n ∈ names, n ≠ []) → (∀ n ∈ names, n.head? ≠ some '#') →
      (∀ n ∈ names, ∀ c ∈ n, isLineBreak c = false) → (∀ n ∈ names, trimmed n = n) →
      ((splitAtBreaks [] (plainLines names)).map trimmed).filter isNameLine = names
  | [], _, _, _, _ => by decide
  | n :: rest, h₁, h₂, h₃, h₄ => by
    have hsplit : splitAtBreaks [] (plainLines (n :: rest)) =
        n :: [] :: splitAtBreaks [] (plainLines rest) := by
      have := splitAtBreaks_line n [] (plainLines rest) (h₃ n (List.mem_cons_self _ _))
      simpa [plainLines] using this
    have hkeep : isNameLine n = true := by
      unfold isNameLine
      simp [h₁ n (List.mem_cons_self _ _), h₂ n (List.mem_cons_self _ _)]
    have hempty : isNameLine (trimmed []) = false := by decide
    rw [hsplit, List.map_cons, List.map_cons, h₄ n (List.mem_cons_self _ _),
      List.filter_cons_of_pos hkeep, List.filter_cons_of_neg (by simp [hempty]),
      lines_of_plainLines rest
        (fun k hk => h₁ k (List.mem_cons_of_mem _ hk))
        (fun k hk => h₂ k (List.mem_cons_of_mem _ hk))
        (fun k hk => h₃ k (List.mem_cons_of_mem _ hk))
        (fun k hk => h₄ k (List.mem_cons_of_mem _ hk))]

/-- The line reader finds, in the header followed by one line per name, exactly the names. -/
theorem forEachLineInFile_written (names : List QString) (h₁ : ∀ n ∈ names, n ≠ [])
    (h₂ : ∀ n ∈ names, n.head? ≠ some '#')
    (h₃ : ∀ n ∈ names, ∀ c ∈ n, isLineBreak c = false) (h₄ : ∀ n ∈ names, trimmed n = n) :
    forEachLineInFile (header ++ plainLines names) = names := by
  have hempty : isNameLine (trimmed []) = false := by decide
  have hsplit : splitAtBreaks [] (header ++ plainLines names) =
      headerText :: [] :: splitAtBreaks [] (plainLines names) := by
    have := splitAtBreaks_line headerText [] (plainLines names) headerText_no_break
    rw [header_eq]
    simpa using this
  rw [forEachLineInFile_eq, hsplit, List.map_cons, List.map_cons,
    List.filter_cons_of_neg (by simp [headerText_skipped]),
    List.filter_cons_of_neg (by simp [hempty]), lines_of_plainLines names h₁ h₂ h₃ h₄]

theorem encodeLines_plain (encoder : QStringEncoder) (names : List QString)
    (hnames : ∀ st n, n ∈ names → encoder.hasError st = false →
      (encoder.encode st n).1 = n ∧ encoder.hasError (encoder.encode st n).2 = false) :
    ∀ (l : List QString) (st : encoder.State), (∀ n ∈ l, n ∈ names) →
      encoder.hasError st = false → encodeLines encoder st l = plainLines l
  | [], _, _, _ => rfl
  | n :: l, st, hl, hst => by
    have h := hnames st n (hl n (List.mem_cons_self _ _)) hst
    unfold encodeLines plainLines
    rw [h.1, encodeLines_plain encoder names hnames l _
      (fun k hk => hl k (List.mem_cons_of_mem _ hk)) h.2]

/-- The callback of `readLoadOrderList` on a list of lines that starts with the primary
plugins and has no two lines that are equal ignoring case: all lines after the primary
plugins are kept. -/
theorem keptLines_front (primary rest : List QString)
    (hci : (primary ++ rest).Pairwise (fun a b => ciEq a b = false)) :
    keptLines (primary.map toLower) (primary ++ rest) = rest := by
  rw [List.pairwise_append] at hci
  have hout : ∀ r ∈ rest, containsCI primary r = false := by
    intro r hr
    unfold containsCI
    rw [List.any_eq_false]
    intro p hp
    simp [hci.2.2 p hp r hr]
  have hfilter : (primary ++ rest).filter (fun s => !containsCI primary s) = rest := by
    rw [List.filter_append]
    have h1 : primary.filter (fun s => !containsCI primary s) = [] := by
      rw [List.filter_eq_nil_iff]
      intro p hp
      simp [containsCI_of_mem hp]
    have h2 : rest.filter (fun s => !containsCI primary s) = rest := by
      rw [List.filter_eq_self]
      intro r hr
      simp [hout r hr]
    rw [h1, h2, List.nil_append]
  rw [keptLines_eq_filter primary (primary ++ rest) (primary.map toLower)
    (fun x hx => hx) (fun x hx => Or.inl hx) (by rw [hfilter]; exact hci.2.1), hfilter]

/-! ## The claims -/

/-- C1. Freshness decision of `readPluginLists`: the list passed to `setLoadOrder` is the
one returned by `readPluginList` exactly when `m_LastRead` is valid, the order file exists,
the order file is not newer than `m_LastRead` and the active file is newer than
`m_LastRead`; in every other case it is the list returned by `readLoadOrderList`. The whole
container comes from the corresponding branch, and an invalid `m_LastRead` always gives the
explicit order. -/
theorem readPluginLists_freshness (org : Organizer) (fs : FileSystem) (sorter : StdSort)
    (now : Nat) (self : GamebryoGamePlugins) (pl : IPluginList) :
    ((readPluginLists org fs sorter now self pl).2.loadOrder =
      if self.m_LastRead.isValid = true ∧ fs.fileExists (loadOrderPath org) = true ∧
          QDateTime.lt self.m_LastRead (fs.lastModified (loadOrderPath org)) = false ∧
          QDateTime.lt self.m_LastRead (fs.lastModified (pluginsPath org)) = true
      then (readPluginList org fs sorter pl).1
      else (readLoadOrderList org fs sorter pl (loadOrderPath org)).1) ∧
    ((readPluginLists org fs sorter now self pl).2 =
      if self.m_LastRead.isValid = true ∧ fs.fileExists (loadOrderPath org) = true ∧
          QDateTime.lt self.m_LastRead (fs.lastModified (loadOrderPath org)) = false ∧
          QDateTime.lt self.m_LastRead (fs.lastModified (pluginsPath org)) = true
      then (readPluginList org fs sorter pl).2.setLoadOrder (readPluginList org fs sorter pl).1
      else (readPluginList org fs sorter
        ((readLoadOrderList org fs sorter pl (loadOrderPath org)).2.setLoadOrder
          (readLoadOrderList org fs sorter pl (loadOrderPath org)).1)).2) ∧
    (readPluginLists org fs sorter now { self with m_LastRead := .invalid } pl).2.loadOrder =
      (readLoadOrderList org fs sorter pl (loadOrderPath org)).1 := by
  have hexplicit : ∀ r : List QString × IPluginList,
      (readPluginList org fs sorter (r.2.setLoadOrder r.1)).2.loadOrder = r.1 := by
    intro r
    exact ((readPluginList_frame org fs sorter (r.2.setLoadOrder r.1)).2.2.2).symm
  have hbody : ∀ s : GamebryoGamePlugins, (readPluginLists org fs sorter now s pl).2 =
      if (loadOrderIsNew org fs s || !pluginsIsNew org fs s) = true then
        (readPluginList org fs sorter
          ((readLoadOrderList org fs sorter pl (loadOrderPath org)).2.setLoadOrder
            (readLoadOrderList org fs sorter pl (loadOrderPath org)).1)).2
      else
        (readPluginList org fs sorter pl).2.setLoadOrder (readPluginList org fs sorter pl).1 :=
    fun _ => rfl
  have hcond : (loadOrderIsNew org fs self || !pluginsIsNew org fs self) = true ↔
      ¬ (self.m_LastRead.isValid = true ∧ fs.fileExists (loadOrderPath org) = true ∧
          QDateTime.lt self.m_LastRead (fs.lastModified (loadOrderPath org)) = false ∧
          QDateTime.lt self.m_LastRead (fs.lastModified (pluginsPath org)) = true) := by
    unfold loadOrderIsNew pluginsIsNew
    cases self.m_LastRead.isValid <;> cases fs.fileExists (loadOrderPath org) <;>
      cases QDateTime.lt self.m_LastRead (fs.lastModified (loadOrderPath org)) <;>
      cases QDateTime.lt self.m_LastRead (fs.lastModified (pluginsPath org)) <;>
      simp
  have hwhole : (readPluginLists org fs sorter now self pl).2 =
      if self.m_LastRead.isValid = true ∧ fs.fileExists (loadOrderPath org) = true ∧
          QDateTime.lt self.m_LastRead (fs.lastModified (loadOrderPath org)) = false ∧
          QDateTime.lt self.m_LastRead (fs.lastModified (pluginsPath org)) = true
      then (readPluginList org fs sorter pl).2.setLoadOrder (readPluginList org fs sorter pl).1
      else (readPluginList org fs sorter
        ((readLoadOrderList org fs sorter pl (loadOrderPath org)).2.setLoadOrder
          (readLoadOrderList org fs sorter pl (loadOrderPath org)).1)).2 := by
    rw [hbody]
    split
    · rename_i h
      rw [if_neg (hcond.1 h)]
    · rename_i h
      rw [if_pos (not_not.1 (fun hn => h (hcond.2 hn)))]
  refine ⟨?_, hwhole, ?_⟩
  · rw [hwhole]
    split
    · rfl
    · exact hexplicit _
  · rw [hbody]
    have hnew : (loadOrderIsNew org fs { self with m_LastRead := .invalid } ||
        !pluginsIsNew org fs { self with m_LastRead := .invalid }) = true := rfl
    rw [if_pos hnew]
    exact hexplicit _

/-- C2, the claim as stated fails: with the primary plugins `A`, `B` and the line `d` twice
in the order file, `readLoadOrderList` returns `A`, `B`, `d`, not the primary plugins
followed by both lines of the file. -/
theorem readLoadOrderList_repeated_line :
    (readLoadOrderList demoOrganizer (demoFileSystem (some ["d".toList, "d".toList]) none)
        insertionSorter demoPluginList (loadOrderPath demoOrganizer)).1 =
      ["A".toList, "B".toList, "d".toList] ∧
    ¬ (readLoadOrderList demoOrganizer (demoFileSystem (some ["d".toList, "d".toList]) none)
        insertionSorter demoPluginList (loadOrderPath demoOrganizer)).1 =
      demoOrganizer.primaryPlugins ++
        ["d".toList, "d".toList].filter (fun s => !containsCI demoOrganizer.primaryPlugins s) := by
  decide

/-- C2, amended. For a readable order file whose lines outside the primary set are pairwise
different ignoring case, `readLoadOrderList` returns the primary plugins followed by exactly
the lines of the file that match no primary plugin ignoring case, in file order, and the
container is left as it was. -/
theorem readLoadOrderList_explicit (org : Organizer) (fs : FileSystem) (sorter : StdSort)
    (pl : IPluginList) (filePath : QString) (lines : List QString)
    (hread : fs.forEachLine filePath = some lines)
    (hdistinct : (lines.filter (fun s => !containsCI org.primaryPlugins s)).Pairwise
      (fun a b => ciEq a b = false)) :
    readLoadOrderList org fs sorter pl filePath =
      (org.primaryPlugins ++ lines.filter (fun s => !containsCI org.primaryPlugins s), pl) := by
  rw [readLoadOrderList_some org fs sorter pl filePath lines hread]
  rw [keptLines_eq_filter org.primaryPlugins lines (org.primaryPlugins.map toLower)
    (fun x hx => hx) (fun x hx => Or.inl hx) hdistinct]

/-- C2, the scenario of the specification: the lines `D`, `C`, `a` with the primary plugins
`A`, `B` give the order `A`, `B`, `D`, `C`. -/
theorem readLoadOrderList_explicit_witness :
    (demoFileSystem (some ["D".toList, "C".toList, "a".toList]) none).forEachLine
        (loadOrderPath demoOrganizer) = some ["D".toList, "C".toList, "a".toList] ∧
    (["D".toList, "C".toList, "a".toList].filter
        (fun s => !containsCI demoOrganizer.primaryPlugins s)).Pairwise
      (fun a b => ciEq a b = false) ∧
    (readLoadOrderList demoOrganizer
        (demoFileSystem (some ["D".toList, "C".toList, "a".toList]) none) insertionSorter
        demoPluginList (loadOrderPath demoOrganizer)).1 =
      ["A".toList, "B".toList, "D".toList, "C".toList] :=
  ⟨by decide, by decide,
    (congrArg Prod.fst (readLoadOrderList_explicit demoOrganizer
      (demoFileSystem (some ["D".toList, "C".toList, "a".toList]) none) insertionSorter
      demoPluginList (loadOrderPath demoOrganizer) ["D".toList, "C".toList, "a".toList]
      (by decide) (by decide))).trans (by decide)⟩

/-- C3. Derived-order read: the part of the result of `readPluginList` after the primary
plugins is a rearrangement of the container names that match no primary plugin ignoring
case, and the modification times of the resolved files do not decrease along it (for every
adjacent pair, and so for every pair). -/
theorem readPluginList_remainder_sorted (org : Organizer) (fs : FileSystem)
    (sorter : StdSort) (pl : IPluginList) :
    (readPluginList org fs sorter pl).1 =
      org.primaryPlugins ++ (readPluginList org fs sorter pl).1.drop org.primaryPlugins.length ∧
    ((readPluginList org fs sorter pl).1.drop org.primaryPlugins.length).Perm
      (pl.pluginNames.filter (fun n => !containsCI org.primaryPlugins n)) ∧
    ((readPluginList org fs sorter pl).1.drop org.primaryPlugins.length).Chain'
      (fun a b => QDateTime.le (resolvedTime org fs pl a) (resolvedTime org fs pl b) = true) ∧
    ((readPluginList org fs sorter pl).1.drop org.primaryPlugins.length).Pairwise
      (fun a b => QDateTime.le (resolvedTime org fs pl a) (resolvedTime org fs pl b) = true) := by
  have hdrop : (readPluginList org fs sorter pl).1.drop org.primaryPlugins.length =
      sortedRemainder org fs sorter pl := by
    rw [readPluginList_fst, List.drop_left]
  have hframe := forcePrimaryActive_frame org.primaryPlugins pl
  have hsorted : (sortedRemainder org fs sorter pl).Pairwise
      (fun a b => QDateTime.le (resolvedTime org fs pl a) (resolvedTime org fs pl b) = true) := by
    have h := sorter.sorted (fileTimeLess org fs (forcePrimaryActive org.primaryPlugins pl))
      (removePrimary org.primaryPlugins (forcePrimaryActive org.primaryPlugins pl).pluginNames)
      (fileTimeLess_strictWeakOrder org fs _)
    refine List.Pairwise.imp ?_ h
    intro a b hab
    unfold fileTimeLess at hab
    rw [resolvedTime_frame org fs hframe, resolvedTime_frame org fs hframe] at hab
    unfold QDateTime.le
    rw [hab]
    rfl
  rw [hdrop]
  refine ⟨readPluginList_fst org fs sorter pl, ?_, hsorted.chain', hsorted⟩
  unfold sortedRemainder
  rw [← hframe.1]
  exact (sorter.perm _ _).trans (by rw [removePrimary_eq_filter])

/-- C4. Primary plugins are fixed at the front: the lists returned by `readLoadOrderList`
and by `readPluginList` both start with the primary plugins in their own order, and no
entry after them equals a primary plugin ignoring case. -/
theorem primary_fixed_at_front (org : Organizer) (fs : FileSystem) (sorter : StdSort)
    (pl : IPluginList) (filePath : QString) :
    (org.primaryPlugins <+: (readLoadOrderList org fs sorter pl filePath).1 ∧
      ∀ n ∈ (readLoadOrderList org fs sorter pl filePath).1.drop org.primaryPlugins.length,
        containsCI org.primaryPlugins n = false) ∧
    (org.primaryPlugins <+: (readPluginList org fs sorter pl).1 ∧
      ∀ n ∈ (readPluginList org fs sorter pl).1.drop org.primaryPlugins.length,
        containsCI org.primaryPlugins n = false) := by
  have hderived : org.primaryPlugins <+: (readPluginList org fs sorter pl).1 ∧
      ∀ n ∈ (readPluginList org fs sorter pl).1.drop org.primaryPlugins.length,
        containsCI org.primaryPlugins n = false := by
    rw [readPluginList_fst, List.drop_left]
    refine ⟨List.prefix_append _ _, ?_⟩
    intro n hn
    exact ((mem_sortedRemainder org fs sorter pl n).1 hn).2
  refine ⟨?_, hderived⟩
  cases hread : fs.forEachLine filePath with
  | none =>
    rw [readLoadOrderList_none org fs sorter pl filePath hread]
    exact hderived
  | some lines =>
    rw [readLoadOrderList_some org fs sorter pl filePath lines hread]
    simp only [List.drop_left]
    refine ⟨List.prefix_append _ _, ?_⟩
    intro n hn
    exact not_containsCI_of_not_mem_map (keptLines_not_mem lines _ n hn).2

/-- C5, the code at a failing input: `Gone.esp` is missing and is listed in `plugins.txt`;
`readPluginList` sets it active. With no `plugins.txt`, a missing plugin that the container
lists is set inactive. -/
theorem readPluginList_overwrites_missing :
    (missingPluginList.state "Gone.esp".toList = STATE_MISSING ∧
      (readPluginList demoOrganizer
        (demoFileSystem none (some "# header\r\nGone.esp\r\n".toList)) insertionSorter
        missingPluginList).2.state "Gone.esp".toList = STATE_ACTIVE) ∧
    ({ missingPluginList with pluginNames := ["Gone.esp".toList] }.state "Gone.esp".toList =
        STATE_MISSING ∧
      (readPluginList demoOrganizer (demoFileSystem none none) insertionSorter
        { missingPluginList with pluginNames := ["Gone.esp".toList] }).2.state
          "Gone.esp".toList = STATE_INACTIVE) := by
  decide

/-- C6. With a readable, non-empty `plugins.txt`: after `readPluginList` every name on a
non-empty, non-comment line of the file is active, and every container name that matches
neither a primary plugin nor one of those names, ignoring case, is inactive. -/
theorem readPluginList_active_states (org : Organizer) (fs : FileSystem) (sorter : StdSort)
    (pl : IPluginList) (content : QByteArray)
    (hread : fs.readAll (pluginsPath org) = some content) (hne : content ≠ []) :
    (∀ n ∈ activeNames content, (readPluginList org fs sorter pl).2.state n = STATE_ACTIVE) ∧
    (∀ n ∈ pl.pluginNames, containsCI org.primaryPlugins n = false →
      containsCI (activeNames content) n = false →
      (readPluginList org fs sorter pl).2.state n = STATE_INACTIVE) := by
  rw [readPluginList_snd_some org fs sorter pl content hread hne]
  constructor
  · intro n hn
    rw [foldl_setState_if, foldl_setState_all]
    have hany : (activeNames content).any (fun k => ciEq n k) = true :=
      List.any_eq_true.2 ⟨n, hn, ciEq_refl n⟩
    have hnone : (sortedRemainder org fs sorter pl).any
        (fun k => !containsCI (activeNames content) k && ciEq n k) = false := by
      rw [List.any_eq_false]
      intro k _ hk
      rw [Bool.and_eq_true] at hk
      have hcont : containsCI (activeNames content) k = true :=
        List.any_eq_true.2 ⟨n, hn, hk.2⟩
      rw [hcont] at hk
      simp at hk
    rw [hnone, hany]
    rfl
  · intro n hn hprim hact
    rw [foldl_setState_if]
    have hmem : n ∈ sortedRemainder org fs sorter pl :=
      (mem_sortedRemainder org fs sorter pl n).2 ⟨hn, hprim⟩
    have hany : (sortedRemainder org fs sorter pl).any
        (fun k => !containsCI (activeNames content) k && ciEq n k) = true :=
      List.any_eq_true.2 ⟨n, hmem, by rw [hact, ciEq_refl]; rfl⟩
    rw [hany]
    rfl

/-- C6, the scenario of the specification: primary plugins `A`, `B`, container names
`A`, `B`, `C`, `D`, the file of `C` older than the file of `D`, and `plugins.txt` listing
`A` and `C` give the order `A`, `B`, `C`, `D` with `A`, `B`, `C` active and `D` inactive. -/
theorem readPluginList_active_states_witness :
    ((demoFileSystem none (some "# header\r\nA\r\nC\r\n".toList)).readAll
        (pluginsPath demoOrganizer) = some "# header\r\nA\r\nC\r\n".toList ∧
      "# header\r\nA\r\nC\r\n".toList ≠ []) ∧
    activeNames "# header\r\nA\r\nC\r\n".toList = ["A".toList, "C".toList] ∧
    (readPluginList demoOrganizer (demoFileSystem none (some "# header\r\nA\r\nC\r\n".toList))
        insertionSorter demoPluginList).1 = ["A".toList, "B".toList, "C".toList, "D".toList] ∧
    (readPluginList demoOrganizer (demoFileSystem none (some "# header\r\nA\r\nC\r\n".toList))
        insertionSorter demoPluginList).2.state "A".toList = STATE_ACTIVE ∧
    (readPluginList demoOrganizer (demoFileSystem none (some "# header\r\nA\r\nC\r\n".toList))
        insertionSorter demoPluginList).2.state "B".toList = STATE_ACTIVE ∧
    (readPluginList demoOrganizer (demoFileSystem none (some "# header\r\nA\r\nC\r\n".toList))
        insertionSorter demoPluginList).2.state "C".toList = STATE_ACTIVE ∧
    (readPluginList demoOrganizer (demoFileSystem none (some "# header\r\nA\r\nC\r\n".toList))
        insertionSorter demoPluginList).2.state "D".toList = STATE_INACTIVE :=
  have h := readPluginList_active_states demoOrganizer
    (demoFileSystem none (some "# header\r\nA\r\nC\r\n".toList)) insertionSorter demoPluginList
    "# header\r\nA\r\nC\r\n".toList (by decide) (by decide)
  ⟨by decide, by decide, by decide, h.1 _ (by decide), by decide, h.1 _ (by decide),
    h.2 _ (by decide) (by decide) (by decide)⟩

/-- C7. When `plugins.txt` cannot be opened or has size zero, after `readPluginList` every
name of the returned list that matches no primary plugin ignoring case is inactive. -/
theorem readPluginList_no_active_file (org : Organizer) (fs : FileSystem) (sorter : StdSort)
    (pl : IPluginList)
    (h : fs.readAll (pluginsPath org) = none ∨ fs.readAll (pluginsPath org) = some []) :
    ∀ n ∈ (readPluginList org fs sorter pl).1, containsCI org.primaryPlugins n = false →
      (readPluginList org fs sorter pl).2.state n = STATE_INACTIVE := by
  intro n hn hprim
  rw [readPluginList_fst, List.mem_append] at hn
  have hmem : n ∈ sortedRemainder org fs sorter pl := by
    rcases hn with hn | hn
    · rw [containsCI_of_mem hn] at hprim
      simp at hprim
    · exact hn
  rw [readPluginList_snd_none org fs sorter pl h, foldl_setState_all]
  have hany : (sortedRemainder org fs sorter pl).any (fun k => ciEq n k) = true :=
    List.any_eq_true.2 ⟨n, hmem, ciEq_refl n⟩
  rw [hany]
  rfl

/-- C7 at a concrete profile: without `plugins.txt`, `C` and `D` end inactive. -/
theorem readPluginList_no_active_file_witness :
    ((demoFileSystem none none).readAll (pluginsPath demoOrganizer) = none ∨
      (demoFileSystem none none).readAll (pluginsPath demoOrganizer) = some []) ∧
    (readPluginList demoOrganizer (demoFileSystem none none) insertionSorter
        demoPluginList).2.state "C".toList = STATE_INACTIVE ∧
    (readPluginList demoOrganizer (demoFileSystem none none) insertionSorter
        demoPluginList).2.state "D".toList = STATE_INACTIVE :=
  have h := readPluginList_no_active_file demoOrganizer (demoFileSystem none none)
    insertionSorter demoPluginList (Or.inl (by decide))
  ⟨Or.inl (by decide), h _ (by decide) (by decide), h _ (by decide) (by decide)⟩

/-- C8. Primary plugins are forced active: whatever `plugins.txt` holds, a primary plugin
whose state is not missing when `readPluginList` starts is active when it returns. -/
theorem readPluginList_primary_active (org : Organizer) (fs : FileSystem) (sorter : StdSort)
    (pl : IPluginList) (p : QString) (hp : p ∈ org.primaryPlugins)
    (hs : pl.state p ≠ STATE_MISSING) :
    (readPluginList org fs sorter pl).2.state p = STATE_ACTIVE := by
  have hforced := forcePrimaryActive_active p org.primaryPlugins pl hp hs
  have hout : ∀ k ∈ sortedRemainder org fs sorter pl, ciEq p k = false := by
    intro k hk
    have hprim := ((mem_sortedRemainder org fs sorter pl k).1 hk).2
    unfold containsCI at hprim
    rw [List.any_eq_false] at hprim
    simpa using hprim p hp
  by_cases h : fs.readAll (pluginsPath org) = none ∨ fs.readAll (pluginsPath org) = some []
  · rw [readPluginList_snd_none org fs sorter pl h, foldl_setState_all]
    have hnone : (sortedRemainder org fs sorter pl).any (fun k => ciEq p k) = false := by
      rw [List.any_eq_false]
      intro k hk
      simp [hout k hk]
    rw [hnone]
    simpa using hforced
  · have hc : ∃ content, fs.readAll (pluginsPath org) = some content ∧ content ≠ [] := by
      cases hr : fs.readAll (pluginsPath org) with
      | none => exact absurd (Or.inl hr) h
      | some content =>
        refine ⟨content, rfl, ?_⟩
        intro hnil
        exact h (Or.inr (by rw [hr, hnil]))
    obtain ⟨content, hr, hne⟩ := hc
    rw [readPluginList_snd_some org fs sorter pl content hr hne, foldl_setState_if,
      foldl_setState_all]
    have hnone : (sortedRemainder org fs sorter pl).any
        (fun k => !containsCI (activeNames content) k && ciEq p k) = false := by
      rw [List.any_eq_false]
      intro k hk
      simp [hout k hk]
    rw [hnone, hforced]
    simp

/-- C8 at a concrete profile: `plugins.txt` lists only `C`, and the primary plugin `B`,
inactive before, is active after the read. -/
theorem readPluginList_primary_active_witness :
    ("B".toList ∈ demoOrganizer.primaryPlugins ∧
      demoPluginList.state "B".toList ≠ STATE_MISSING) ∧
    (readPluginList demoOrganizer (demoFileSystem none (some "# header\r\nC\r\n".toList))
        insertionSorter demoPluginList).2.state "B".toList = STATE_ACTIVE :=
  ⟨by decide,
    readPluginList_primary_active demoOrganizer
      (demoFileSystem none (some "# header\r\nC\r\n".toList)) insertionSorter demoPluginList
      "B".toList (by decide) (by decide)⟩

/-- C9. Empty-output guard: when no name of the container passes the filter
`loadOrder || state == STATE_ACTIVE` of `writeList` (for the active file no plugin is
active, for the order file the container has no names), `writeList` does not commit: the instance, with its hash map, and the files are the same
after the call as before it. -/
theorem writeList_empty_guard (encs : Encoders) (hashFn : QByteArray → QByteArray)
    (sorter : StdSort) (self : GamebryoGamePlugins) (disk : Disk) (pl : IPluginList)
    (filePath : QString) (loadOrder : Bool)
    (hnone : ∀ n ∈ pl.pluginNames, ¬ (loadOrder = true ∨ pl.state n = STATE_ACTIVE)) :
    (writeList encs hashFn sorter self disk pl filePath loadOrder).2 filePath = disk filePath ∧
    (writeList encs hashFn sorter self disk pl filePath loadOrder).1.m_LastSaveHash filePath =
      self.m_LastSaveHash filePath ∧
    writeList encs hashFn sorter self disk pl filePath loadOrder = (self, disk) := by
  have hfilter : ∀ n ∈ pl.pluginNames, included pl loadOrder n = false := by
    intro n hn
    have h := hnone n hn
    rw [not_or] at h
    simp [included, h.1, h.2]
  have hcount : (writeBuffer encs sorter pl loadOrder).writtenCount = 0 := by
    rw [writeBuffer_count, List.length_eq_zero, List.filter_eq_nil_iff]
    intro n hn
    rw [hfilter n (((sorter.perm _ _).mem_iff).1 hn)]
    simp
  have hsame : writeList encs hashFn sorter self disk pl filePath loadOrder = (self, disk) := by
    unfold writeList
    simp only [hcount, if_true]
  rw [hsame]
  exact ⟨rfl, rfl, rfl⟩

/-- C9 at a concrete profile: no plugin of the container is active, `plugins.txt` holds an
earlier list, and `writePluginList` leaves the file and the hash as they were. -/
theorem writeList_empty_guard_witness :
    (∀ n ∈ demoPluginList.pluginNames,
      ¬ (false = true ∨ demoPluginList.state n = STATE_ACTIVE)) ∧
    (writePluginList demoEncoders id insertionSorter GamebryoGamePlugins.new
        (fun p => if p = pluginsPath demoOrganizer then some "# old\r\nA\r\n".toList else none)
        demoPluginList (pluginsPath demoOrganizer)).2 (pluginsPath demoOrganizer) =
      some "# old\r\nA\r\n".toList ∧
    (writePluginList demoEncoders id insertionSorter GamebryoGamePlugins.new
        (fun p => if p = pluginsPath demoOrganizer then some "# old\r\nA\r\n".toList else none)
        demoPluginList (pluginsPath demoOrganizer)).1.m_LastSaveHash (pluginsPath demoOrganizer) =
      [] :=
  have h := writeList_empty_guard demoEncoders id insertionSorter GamebryoGamePlugins.new
    (fun p => if p = pluginsPath demoOrganizer then some "# old\r\nA\r\n".toList else none)
    demoPluginList (pluginsPath demoOrganizer) false (by decide)
  ⟨by decide, h.1.trans (by decide), h.2.1⟩

/-- C10. A write never produces a file with zero plugin entries: for every container and
every encoder that has no error after the header (it may fail on some or all names),
whenever `writeList` reaches the commit (its counter is not 0), the content it commits
holds, right after the header, a line that carries an included name as the encoder
converts it, followed by `\r\n`. -/
theorem writeList_commit_carries_name (encs : Encoders) (sorter : StdSort) (pl : IPluginList)
    (loadOrder : Bool)
    (hheader : (selectEncoder encs loadOrder).hasError
      ((selectEncoder encs loadOrder).encode (selectEncoder encs loadOrder).init header).2 = false)
    (hcommit : (writeBuffer encs sorter pl loadOrder).writtenCount ≠ 0) :
    ∃ (n : QString) (rest : QByteArray), n ∈ pl.pluginNames ∧
      (loadOrder = true ∨ pl.state n = STATE_ACTIVE) ∧
      (writeBuffer encs sorter pl loadOrder).file =
        ((selectEncoder encs loadOrder).encode (selectEncoder encs loadOrder).init header).1 ++
          (((selectEncoder encs loadOrder).encode
            ((selectEncoder encs loadOrder).encode
              (selectEncoder encs loadOrder).init header).2 n).1 ++ crlf) ++ rest := by
  rw [writeBuffer_count] at hcommit
  cases hfilter : (sorter.sort (priorityLess pl) pl.pluginNames).filter (included pl loadOrder)
    with
  | nil =>
    rw [hfilter] at hcommit
    exact absurd rfl hcommit
  | cons n tail =>
    have hn : n ∈ (sorter.sort (priorityLess pl) pl.pluginNames).filter
        (included pl loadOrder) := by
      rw [hfilter]
      exact List.mem_cons_self _ _
    rw [List.mem_filter] at hn
    obtain ⟨rest, hrest⟩ := foldl_writeStep_first (selectEncoder encs loadOrder) pl loadOrder
      (sorter.sort (priorityLess pl) pl.pluginNames)
      { file := ((selectEncoder encs loadOrder).encode
            (selectEncoder encs loadOrder).init header).1
        enc := ((selectEncoder encs loadOrder).encode
            (selectEncoder encs loadOrder).init header).2
        invalidFileNames := false
        writtenCount := 0 }
      n tail hheader hfilter
    refine ⟨n, rest, ((sorter.perm _ _).mem_iff).1 hn.1, ?_, hrest⟩
    have hinc := hn.2
    unfold included at hinc
    cases loadOrder with
    | true => exact Or.inl rfl
    | false => exact Or.inr (by simpa using hinc)

/-- C10 at a concrete profile: the only active plugin is `é.esp`, which the system encoder
cannot represent. The commit is reached and the committed content is the header followed
by the line `?.esp`, the name as the encoder converts it. -/
theorem writeList_commit_carries_name_witness :
    ((selectEncoder demoEncoders false).hasError
        ((selectEncoder demoEncoders false).encode (selectEncoder demoEncoders false).init
          header).2 = false ∧
      (writeBuffer demoEncoders insertionSorter accentPluginList false).writtenCount ≠ 0) ∧
    (∃ (n : QString) (rest : QByteArray), n ∈ accentPluginList.pluginNames ∧
      (false = true ∨ accentPluginList.state n = STATE_ACTIVE) ∧
      (writeBuffer demoEncoders insertionSorter accentPluginList false).file =
        ((selectEncoder demoEncoders false).encode (selectEncoder demoEncoders false).init
          header).1 ++
          (((selectEncoder demoEncoders false).encode
            ((selectEncoder demoEncoders false).encode
              (selectEncoder demoEncoders false).init header).2 n).1 ++ crlf) ++ rest) ∧
    (writeBuffer demoEncoders insertionSorter accentPluginList false).file =
      header ++ "?.esp\r\n".toList ∧
    (writePluginList demoEncoders id insertionSorter GamebryoGamePlugins.new (fun _ => none)
        accentPluginList (pluginsPath demoOrganizer)).2 (pluginsPath demoOrganizer) =
      some (header ++ "?.esp\r\n".toList) :=
  ⟨by decide,
    writeList_commit_carries_name demoEncoders insertionSorter accentPluginList false
      (by decide) (by decide),
    by decide, by decide⟩

/-- C11, the code at a failing input: the active plugins are `A`, `é.esp` and (in the second
container) `B`, and the system encoder cannot represent `é.esp`. The name that fails to
encode is not skipped: it is converted and written as `?.esp`, and nothing is reported for
it. The error it leaves makes the code skip the next name, `B`, whose encoding would not
fail: `B` contributes an empty line and is the name that is reported. -/
theorem writeList_failed_name_written :
    ((writeBuffer demoEncoders insertionSorter mixedPluginList false).file =
        header ++ "A\r\n".toList ++ "?.esp\r\n".toList ∧
      (writeBuffer demoEncoders insertionSorter mixedPluginList false).file ≠
        header ++ "A\r\n".toList ∧
      (writeBuffer demoEncoders insertionSorter mixedPluginList false).invalidFileNames =
        false) ∧
    ((writeBuffer demoEncoders insertionSorter trailingPluginList false).file =
        header ++ "A\r\n".toList ++ "?.esp\r\n".toList ++ crlf ∧
      (writeBuffer demoEncoders insertionSorter trailingPluginList false).file ≠
        header ++ "A\r\n".toList ++ "B\r\n".toList ∧
      (writeBuffer demoEncoders insertionSorter trailingPluginList false).invalidFileNames =
        true ∧
      (writeBuffer demoEncoders insertionSorter trailingPluginList false).writtenCount = 3) := by
  decide

/-- C12. Writer content when every name encodes: for a container whose names have pairwise
different priorities, and an encoder that reports no error on the header and on the names,
the content is the encoded header followed by one line (encoded name, then `\r\n`) per
included name, in strictly ascending order of priority; the included names are all names
for the order file and the active names for the active file. -/
theorem writeList_content (encs : Encoders) (sorter : StdSort) (pl : IPluginList)
    (loadOrder : Bool)
    (hdistinct : pl.pluginNames.Pairwise (fun a b => pl.priority a ≠ pl.priority b))
    (hheader : (selectEncoder encs loadOrder).hasError
      ((selectEncoder encs loadOrder).encode (selectEncoder encs loadOrder).init header).2 = false)
    (hnames : ∀ st n, n ∈ pl.pluginNames → (selectEncoder encs loadOrder).hasError st = false →
      (selectEncoder encs loadOrder).hasError ((selectEncoder encs loadOrder).encode st n).2 =
        false) :
    ∃ lines : List QString,
      lines.Perm (pl.pluginNames.filter (fun n => loadOrder || pl.state n == STATE_ACTIVE)) ∧
      lines.Pairwise (fun a b => pl.priority a < pl.priority b) ∧
      (writeBuffer encs sorter pl loadOrder).file =
        ((selectEncoder encs loadOrder).encode (selectEncoder encs loadOrder).init header).1 ++
          encodeLines (selectEncoder encs loadOrder)
            ((selectEncoder encs loadOrder).encode (selectEncoder encs loadOrder).init header).2
            lines := by
  refine ⟨(sorter.sort (priorityLess pl) pl.pluginNames).filter (included pl loadOrder),
    ?_, ?_, writeBuffer_file encs sorter pl loadOrder hheader hnames⟩
  · exact (sorter.perm (priorityLess pl) pl.pluginNames).filter _
  · exact (sorted_priority_strict sorter pl hdistinct).filter _

/-- C12 at a concrete profile: the order file of the container `A`, `B`, `C`, `D` holds the
header and the four names in the order of their priorities. -/
theorem writeList_content_witness :
    demoPluginList.pluginNames.Pairwise
      (fun a b => demoPluginList.priority a ≠ demoPluginList.priority b) ∧
    (∃ lines : List QString,
      lines.Perm (demoPluginList.pluginNames.filter
        (fun n => true || demoPluginList.state n == STATE_ACTIVE)) ∧
      lines.Pairwise (fun a b => demoPluginList.priority a < demoPluginList.priority b) ∧
      (writeBuffer demoEncoders insertionSorter demoPluginList true).file =
        ((selectEncoder demoEncoders true).encode (selectEncoder demoEncoders true).init header).1
          ++ encodeLines (selectEncoder demoEncoders true)
            ((selectEncoder demoEncoders true).encode
              (selectEncoder demoEncoders true).init header).2 lines) ∧
    (writeBuffer demoEncoders insertionSorter demoPluginList true).file =
      header ++ "A\r\nB\r\nC\r\nD\r\n".toList :=
  ⟨by decide,
    writeList_content demoEncoders insertionSorter demoPluginList true (by decide) rfl
      (fun _ _ _ _ => rfl),
    by decide⟩

/-- C13. No write before a read: with an invalid `m_LastRead`, `writePluginLists` writes
no file and leaves `m_LastRead` and `m_LastSaveHash` as they were; so no sequence of calls
other than `readPluginLists` changes the instance or the files. -/
theorem no_write_before_read (org : Organizer) (encs : Encoders)
    (hashFn : QByteArray → QByteArray) (sorter : StdSort) (self : GamebryoGamePlugins)
    (disk : Disk) (h : self.m_LastRead.isValid = false) :
    (∀ (pl : IPluginList) (now : Nat),
      writePluginLists org encs hashFn sorter now self disk pl = (self, disk)) ∧
    (∀ calls : List Call,
      calls.foldl (runCall org encs hashFn sorter) (self, disk) = (self, disk)) := by
  refine ⟨fun pl now => writePluginLists_invalid org encs hashFn sorter now self disk pl h, ?_⟩
  intro calls
  induction calls with
  | nil => rfl
  | cons c rest ih =>
    rw [List.foldl_cons]
    have hstep : runCall org encs hashFn sorter (self, disk) c = (self, disk) := by
      cases c with
      | writePluginLists pl now =>
        exact writePluginLists_invalid org encs hashFn sorter now self disk pl h
      | getLoadOrder fs pl => rfl
      | lightPluginsAreSupported => rfl
    rw [hstep]
    exact ih

/-- C13 for a freshly constructed instance: two calls of `writePluginLists` on a container
with plugins leave the instance and the absent files as they were. -/
theorem no_write_before_read_witness :
    GamebryoGamePlugins.new.m_LastRead.isValid = false ∧
    ([Call.writePluginLists demoPluginList 7, Call.getLoadOrder (demoFileSystem none none)
        demoPluginList, Call.writePluginLists mixedPluginList 8].foldl
      (runCall demoOrganizer demoEncoders id insertionSorter)
      (GamebryoGamePlugins.new, fun _ => none)) = (GamebryoGamePlugins.new, fun _ => none) :=
  ⟨rfl,
    (no_write_before_read demoOrganizer demoEncoders id insertionSorter GamebryoGamePlugins.new
      (fun _ => none) rfl).2 _⟩

/-- C14, the claim as stated fails: the files of `E` and `F` have the same modification
time and the container lists `E` before `F`; with a `std::sort` that leaves equivalent
elements in the other order, `readPluginList` returns `F` before `E`. -/
theorem readPluginList_tie_order :
    resolvedTime demoOrganizer (demoFileSystem none none) tiedPluginList "E".toList =
      resolvedTime demoOrganizer (demoFileSystem none none) tiedPluginList "F".toList ∧
    tiedPluginList.pluginNames = ["E".toList, "F".toList] ∧
    (readPluginList demoOrganizer (demoFileSystem none none) reverseSorter tiedPluginList).1 =
      ["A".toList, "B".toList, "F".toList, "E".toList] ∧
    ¬ List.Sublist ["E".toList, "F".toList]
      (readPluginList demoOrganizer (demoFileSystem none none) reverseSorter tiedPluginList).1 := by
  decide

/-- C14, amended. Two names of the container that match no primary plugin and whose
resolved files have different modification times appear in the result of `readPluginList`
with the earlier file first, and never the other way round. -/
theorem readPluginList_time_order (org : Organizer) (fs : FileSystem) (sorter : StdSort)
    (pl : IPluginList) (a b : QString) (ha : a ∈ pl.pluginNames) (hb : b ∈ pl.pluginNames)
    (hap : containsCI org.primaryPlugins a = false)
    (hbp : containsCI org.primaryPlugins b = false)
    (hlt : QDateTime.lt (resolvedTime org fs pl a) (resolvedTime org fs pl b) = true) :
    List.Sublist [a, b] ((readPluginList org fs sorter pl).1.drop org.primaryPlugins.length) ∧
    ¬ List.Sublist [b, a]
      ((readPluginList org fs sorter pl).1.drop org.primaryPlugins.length) := by
  have hdrop : (readPluginList org fs sorter pl).1.drop org.primaryPlugins.length =
      sortedRemainder org fs sorter pl := by
    rw [readPluginList_fst, List.drop_left]
  rw [hdrop]
  have hma : a ∈ sortedRemainder org fs sorter pl :=
    (mem_sortedRemainder org fs sorter pl a).2 ⟨ha, hap⟩
  have hmb : b ∈ sortedRemainder org fs sorter pl :=
    (mem_sortedRemainder org fs sorter pl b).2 ⟨hb, hbp⟩
  have hne : a ≠ b := by
    intro hab
    rw [hab, QDateTime.lt_strictWeakOrder.irrefl] at hlt
    simp at hlt
  have hnot : ¬ List.Sublist [b, a] (sortedRemainder org fs sorter pl) := by
    intro hsub
    have hpair := (sortedRemainder_pairwise org fs sorter pl).sublist hsub
    rw [List.pairwise_pair] at hpair
    rw [hpair] at hlt
    simp at hlt
  rcases pair_sublist_or hma hmb hne with h | h
  · exact ⟨h, hnot⟩
  · exact absurd h hnot

/-- C14, amended, at a concrete profile: the file of `C` is older than the file of `D`, and
`C` comes before `D` also with the sort that reverses ties. -/
theorem readPluginList_time_order_witness :
    QDateTime.lt (resolvedTime demoOrganizer (demoFileSystem none none) demoPluginList "C".toList)
      (resolvedTime demoOrganizer (demoFileSystem none none) demoPluginList "D".toList) = true ∧
    List.Sublist ["C".toList, "D".toList]
      ((readPluginList demoOrganizer (demoFileSystem none none) reverseSorter
        demoPluginList).1.drop demoOrganizer.primaryPlugins.length) :=
  ⟨by decide,
    (readPluginList_time_order demoOrganizer (demoFileSystem none none) reverseSorter
      demoPluginList "C".toList "D".toList (by decide) (by decide) (by decide) (by decide)
      (by decide)).1⟩

/-- C15, the claim as stated fails: the containers `A`, `B`, ` C` (a name that starts with a
blank) and `A`, `B`, `x\ny` (a name with a line feed) meet every condition of the claim,
and reading back the order file written for them gives `A`, `B`, `C` and `A`, `B`, `x`, `y`,
not the names of the container. -/
theorem order_round_trip_fails :
    (readLoadOrderList demoOrganizer
        (demoFileSystem (some (forEachLineInFile
          (writeBuffer demoEncoders insertionSorter (thirdPluginList " C".toList) true).file))
          none)
        insertionSorter (thirdPluginList " C".toList) (loadOrderPath demoOrganizer)).1 =
      ["A".toList, "B".toList, "C".toList] ∧
    insertionSorter.sort (priorityLess (thirdPluginList " C".toList))
      (thirdPluginList " C".toList).pluginNames = ["A".toList, "B".toList, " C".toList] ∧
    (readLoadOrderList demoOrganizer
        (demoFileSystem (some (forEachLineInFile
          (writeBuffer demoEncoders insertionSorter (thirdPluginList "x\ny".toList) true).file))
          none)
        insertionSorter (thirdPluginList "x\ny".toList) (loadOrderPath demoOrganizer)).1 =
      ["A".toList, "B".toList, "x".toList, "y".toList] ∧
    insertionSorter.sort (priorityLess (thirdPluginList "x\ny".toList))
      (thirdPluginList "x\ny".toList).pluginNames = ["A".toList, "B".toList, "x\ny".toList] ∧
    ((∀ n ∈ (thirdPluginList " C".toList).pluginNames, n ≠ [] ∧ n.head? ≠ some '#') ∧
      (thirdPluginList " C".toList).pluginNames.Pairwise (fun a b => ciEq a b = false) ∧
      (thirdPluginList " C".toList).pluginNames.Pairwise
        (fun a b => (thirdPluginList " C".toList).priority a ≠
          (thirdPluginList " C".toList).priority b)) ∧
    ((∀ n ∈ (thirdPluginList "x\ny".toList).pluginNames, n ≠ [] ∧ n.head? ≠ some '#') ∧
      (thirdPluginList "x\ny".toList).pluginNames.Pairwise (fun a b => ciEq a b = false) ∧
      (thirdPluginList "x\ny".toList).pluginNames.Pairwise
        (fun a b => (thirdPluginList "x\ny".toList).priority a ≠
          (thirdPluginList "x\ny".toList).priority b)) := by
  decide

/-- C15, amended. Order round trip: the names of the container are non-empty, do not start
with `#`, contain no carriage return or line feed, have no white space at either end, are
pairwise different ignoring case and have pairwise different priorities; the UTF-8 encoder
writes the header and every name as they are, without error; and the names in the order of
their priorities begin with the primary plugins. Then `readLoadOrderList`, applied to the
content that `writeLoadOrderList` writes, returns exactly the names of the container in
strictly ascending order of priority. -/
theorem order_round_trip (org : Organizer) (fs : FileSystem) (encs : Encoders)
    (sorter : StdSort) (pl reader : IPluginList) (filePath : QString)
    (hnonempty : ∀ n ∈ pl.pluginNames, n ≠ [])
    (hcomment : ∀ n ∈ pl.pluginNames, n.head? ≠ some '#')
    (hbreaks : ∀ n ∈ pl.pluginNames, ∀ c ∈ n, isLineBreak c = false)
    (htrimmed : ∀ n ∈ pl.pluginNames, trimmed n = n)
    (hci : pl.pluginNames.Pairwise (fun a b => ciEq a b = false))
    (hdistinct : pl.pluginNames.Pairwise (fun a b => pl.priority a ≠ pl.priority b))
    (hheader : (encs.utf8.encode encs.utf8.init header).1 = header ∧
      encs.utf8.hasError (encs.utf8.encode encs.utf8.init header).2 = false)
    (hnames : ∀ st n, n ∈ pl.pluginNames → encs.utf8.hasError st = false →
      (encs.utf8.encode st n).1 = n ∧ encs.utf8.hasError (encs.utf8.encode st n).2 = false)
    (hfront : org.primaryPlugins <+: sorter.sort (priorityLess pl) pl.pluginNames)
    (hfile : fs.forEachLine filePath =
      some (forEachLineInFile (writeBuffer encs sorter pl true).file)) :
    (readLoadOrderList org fs sorter reader filePath).1 =
      sorter.sort (priorityLess pl) pl.pluginNames ∧
    (readLoadOrderList org fs sorter reader filePath).1.Pairwise
      (fun a b => pl.priority a < pl.priority b) ∧
    (readLoadOrderList org fs sorter reader filePath).1.Perm pl.pluginNames := by
  have hmem : ∀ n ∈ sorter.sort (priorityLess pl) pl.pluginNames, n ∈ pl.pluginNames :=
    fun n hn => ((sorter.perm _ _).mem_iff).1 hn
  have hall : (sorter.sort (priorityLess pl) pl.pluginNames).filter (included pl true) =
      sorter.sort (priorityLess pl) pl.pluginNames := by
    rw [List.filter_eq_self]
    intro n _
    rfl
  have hcontent : (writeBuffer encs sorter pl true).file =
      header ++ plainLines (sorter.sort (priorityLess pl) pl.pluginNames) := by
    have h := writeBuffer_file encs sorter pl true hheader.2
      (fun st n hn hst => (hnames st n hn hst).2)
    rw [hall] at h
    rw [h]
    have henc := encodeLines_plain encs.utf8 pl.pluginNames hnames
      (sorter.sort (priorityLess pl) pl.pluginNames) _ hmem hheader.2
    have hhead : ((selectEncoder encs true).encode (selectEncoder encs true).init header).1 =
        header := hheader.1
    rw [hhead]
    exact congrArg (fun t => header ++ t) henc
  have hlines : fs.forEachLine filePath =
      some (sorter.sort (priorityLess pl) pl.pluginNames) := by
    rw [hfile, hcontent, forEachLineInFile_written _
      (fun n hn => hnonempty n (hmem n hn)) (fun n hn => hcomment n (hmem n hn))
      (fun n hn => hbreaks n (hmem n hn)) (fun n hn => htrimmed n (hmem n hn))]
  have hsortedci : (sorter.sort (priorityLess pl) pl.pluginNames).Pairwise
      (fun a b => ciEq a b = false) :=
    (sorter.perm (priorityLess pl) pl.pluginNames).symm.pairwise hci
      (fun h => by rw [ciEq_comm]; exact h)
  obtain ⟨rest, hrest⟩ := hfront
  have hresult : (readLoadOrderList org fs sorter reader filePath).1 =
      sorter.sort (priorityLess pl) pl.pluginNames := by
    rw [readLoadOrderList_some org fs sorter reader filePath _ hlines]
    show org.primaryPlugins ++ keptLines (org.primaryPlugins.map toLower)
      (sorter.sort (priorityLess pl) pl.pluginNames) = _
    rw [← hrest] at hsortedci ⊢
    rw [keptLines_front org.primaryPlugins rest hsortedci]
  rw [hresult]
  exact ⟨rfl, sorted_priority_strict sorter pl hdistinct, sorter.perm _ _⟩

/-- C15, amended, at a concrete profile: the order file written for the container `A`, `B`,
`C`, `D` is read back as `A`, `B`, `C`, `D`. -/
theorem order_round_trip_witness :
    ((∀ n ∈ demoPluginList.pluginNames, n ≠ []) ∧
      (∀ n ∈ demoPluginList.pluginNames, n.head? ≠ some '#') ∧
      (∀ n ∈ demoPluginList.pluginNames, ∀ c ∈ n, isLineBreak c = false) ∧
      (∀ n ∈ demoPluginList.pluginNames, trimmed n = n) ∧
      demoPluginList.pluginNames.Pairwise (fun a b => ciEq a b = false) ∧
      demoPluginList.pluginNames.Pairwise
        (fun a b => demoPluginList.priority a ≠ demoPluginList.priority b) ∧
      demoOrganizer.primaryPlugins <+:
        insertionSorter.sort (priorityLess demoPluginList) demoPluginList.pluginNames) ∧
    (readLoadOrderList demoOrganizer
        (demoFileSystem (some (forEachLineInFile
          (writeBuffer demoEncoders insertionSorter demoPluginList true).file)) none)
        insertionSorter emptyPluginList (loadOrderPath demoOrganizer)).1 =
      ["A".toList, "B".toList, "C".toList, "D".toList] :=
  ⟨by decide,
    (order_round_trip demoOrganizer
      (demoFileSystem (some (forEachLineInFile
        (writeBuffer demoEncoders insertionSorter demoPluginList true).file)) none)
      demoEncoders insertionSorter demoPluginList emptyPluginList (loadOrderPath demoOrganizer)
      (by decide) (by decide) (by decide) (by decide) (by decide) (by decide) ⟨rfl, rfl⟩
      (fun _ _ _ _ => ⟨rfl, rfl⟩) (by decide) (by decide)).1.trans (by decide)⟩

/-- C16. Fallback to the derived order: when the order file cannot be opened,
`readLoadOrderList` returns the list of `readPluginList` and leaves the container as
`readPluginList` leaves it. -/
theorem readLoadOrderList_fallback (org : Organizer) (fs : FileSystem) (sorter : StdSort)
    (pl : IPluginList) (filePath : QString) (h : fs.forEachLine filePath = none) :
    (readLoadOrderList org fs sorter pl filePath).1 = (readPluginList org fs sorter pl).1 ∧
    (readLoadOrderList org fs sorter pl filePath).2 = (readPluginList org fs sorter pl).2 ∧
    readLoadOrderList org fs sorter pl filePath = readPluginList org fs sorter pl := by
  rw [readLoadOrderList_none org fs sorter pl filePath h]
  exact ⟨rfl, rfl, rfl⟩

/-- C16 at a concrete profile: without `loadorder.txt` the explicit read gives the derived
order `A`, `B`, `C`, `D` and the states that `plugins.txt` gives. -/
theorem readLoadOrderList_fallback_witness :
    (demoFileSystem none (some "# header\r\nC\r\n".toList)).forEachLine
      (loadOrderPath demoOrganizer) = none ∧
    (readLoadOrderList demoOrganizer (demoFileSystem none (some "# header\r\nC\r\n".toList))
        insertionSorter demoPluginList (loadOrderPath demoOrganizer)).1 =
      ["A".toList, "B".toList, "C".toList, "D".toList] ∧
    (readLoadOrderList demoOrganizer (demoFileSystem none (some "# header\r\nC\r\n".toList))
        insertionSorter demoPluginList (loadOrderPath demoOrganizer)).2.state "C".toList =
      STATE_ACTIVE :=
  have h := readLoadOrderList_fallback demoOrganizer
    (demoFileSystem none (some "# header\r\nC\r\n".toList)) insertionSorter demoPluginList
    (loadOrderPath demoOrganizer) (by decide)
  ⟨by decide, h.1.trans (by decide), (congrArg (fun c => c.state "C".toList) h.2.1).trans
    (by decide)⟩

/-- C17, the claim as stated fails: the instance has a valid `m_LastRead` and the container
has no plugin, so both writes stop at the empty-output guard; no file is committed and no
hash is stored, and yet `m_LastRead` moves from 5 to 9. -/
theorem writePluginLists_timestamp_without_commit :
    (writePluginLists demoOrganizer demoEncoders id insertionSorter 9 syncedInstance
        (fun _ => none) emptyPluginList).1.m_LastRead = .msecs 9 ∧
    syncedInstance.m_LastRead = .msecs 5 ∧
    (writePluginLists demoOrganizer demoEncoders id insertionSorter 9 syncedInstance
        (fun _ => none) emptyPluginList).1.m_LastSaveHash (pluginsPath demoOrganizer) = [] ∧
    (writePluginLists demoOrganizer demoEncoders id insertionSorter 9 syncedInstance
        (fun _ => none) emptyPluginList).1.m_LastSaveHash (loadOrderPath demoOrganizer) = [] ∧
    (writePluginLists demoOrganizer demoEncoders id insertionSorter 9 syncedInstance
        (fun _ => none) emptyPluginList).2 (pluginsPath demoOrganizer) = none ∧
    (writePluginLists demoOrganizer demoEncoders id insertionSorter 9 syncedInstance
        (fun _ => none) emptyPluginList).2 (loadOrderPath demoOrganizer) = none := by
  decide

/-- C17, amended. `writePluginLists` sets `m_LastRead` to the current time exactly when
`m_LastRead` was valid at the call, whether or not a file is committed; and a call that
changes `m_LastSaveHash` or a file has set `m_LastRead` to the current time. -/
theorem writePluginLists_timestamp (org : Organizer) (encs : Encoders)
    (hashFn : QByteArray → QByteArray) (sorter : StdSort) (now : Nat)
    (self : GamebryoGamePlugins) (disk : Disk) (pl : IPluginList) :
    (writePluginLists org encs hashFn sorter now self disk pl).1.m_LastRead =
      (if self.m_LastRead.isValid then .msecs now else self.m_LastRead) ∧
    (((writePluginLists org encs hashFn sorter now self disk pl).1.m_LastSaveHash =
        self.m_LastSaveHash ∧
      (writePluginLists org encs hashFn sorter now self disk pl).2 = disk) ∨
      (writePluginLists org encs hashFn sorter now self disk pl).1.m_LastRead = .msecs now) := by
  cases h : self.m_LastRead.isValid with
  | false =>
    rw [writePluginLists_invalid org encs hashFn sorter now self disk pl h]
    exact ⟨by simp, Or.inl ⟨rfl, rfl⟩⟩
  | true =>
    have hv := writePluginLists_valid org encs hashFn sorter now self disk pl h
    exact ⟨by simp [hv], Or.inr hv⟩

/-- C18, the code at a failing input: the order file lists `Foo.esp` twice, or `Foo.esp`
and then `foo.esp`. The callback looks up the lower-case form of a line but records the
line as it is spelled, so the second line is not found and both lines are returned. -/
theorem readLoadOrderList_keeps_duplicates :
    (readLoadOrderList demoOrganizer
        (demoFileSystem (some ["Foo.esp".toList, "Foo.esp".toList]) none) insertionSorter
        demoPluginList (loadOrderPath demoOrganizer)).1 =
      ["A".toList, "B".toList, "Foo.esp".toList, "Foo.esp".toList] ∧
    (readLoadOrderList demoOrganizer
        (demoFileSystem (some ["Foo.esp".toList, "foo.esp".toList]) none) insertionSorter
        demoPluginList (loadOrderPath demoOrganizer)).1 =
      ["A".toList, "B".toList, "Foo.esp".toList, "foo.esp".toList] ∧
    ciEq "Foo.esp".toList "foo.esp".toList = true := by
  decide

/-- C19, the claim as stated fails: the container lists only `C`, and `readPluginList`
returns `A`, `B`, `C`: the primary plugins `A` and `B`, which the container does not list,
are in the result, which is no rearrangement of the names of the container. -/
theorem readPluginList_unlisted_primary :
    missingPluginList.pluginNames = ["C".toList] ∧
    (readPluginList demoOrganizer (demoFileSystem none none) insertionSorter
        missingPluginList).1 = ["A".toList, "B".toList, "C".toList] ∧
    ¬ (readPluginList demoOrganizer (demoFileSystem none none) insertionSorter
        missingPluginList).1.Perm missingPluginList.pluginNames := by
  refine ⟨by decide, by decide, ?_⟩
  intro h
  have := h.length_eq
  revert this
  decide

/-- C19, amended. For every container, whether or not it lists the primary plugins, the
primary part of the result of `readPluginList` is the list of primary plugins itself and the
rest is a rearrangement of the container names that match no primary plugin ignoring case;
the whole result is a rearrangement of the container names when (and only when) the primary
plugins are a rearrangement of the container names that match a primary plugin. -/
theorem readPluginList_rearranges (org : Organizer) (fs : FileSystem) (sorter : StdSort)
    (pl : IPluginList) :
    (readPluginList org fs sorter pl).1.take org.primaryPlugins.length = org.primaryPlugins ∧
    ((readPluginList org fs sorter pl).1.drop org.primaryPlugins.length).Perm
      (pl.pluginNames.filter (fun n => !containsCI org.primaryPlugins n)) ∧
    ((readPluginList org fs sorter pl).1.Perm pl.pluginNames ↔
      org.primaryPlugins.Perm
        (pl.pluginNames.filter (fun n => containsCI org.primaryPlugins n))) := by
  have hrest : (sortedRemainder org fs sorter pl).Perm
      (pl.pluginNames.filter (fun n => !containsCI org.primaryPlugins n)) := by
    unfold sortedRemainder
    rw [← (forcePrimaryActive_frame org.primaryPlugins pl).1]
    exact (sorter.perm _ _).trans (by rw [removePrimary_eq_filter])
  have hsplit := List.filter_append_perm (fun n => containsCI org.primaryPlugins n)
    pl.pluginNames
  rw [readPluginList_fst, List.take_left, List.drop_left]
  refine ⟨rfl, hrest, ?_, ?_⟩
  · intro hwhole
    have h : (org.primaryPlugins ++ sortedRemainder org fs sorter pl).Perm
        (pl.pluginNames.filter (fun n => containsCI org.primaryPlugins n) ++
          sortedRemainder org fs sorter pl) :=
      (hwhole.trans hsplit.symm).trans (List.Perm.append_left _ hrest.symm)
    exact (List.perm_append_right_iff _).1 h
  · intro hlisted
    exact (List.Perm.append hlisted hrest).trans hsplit

/-- C19, amended, at two concrete profiles: the container `C` does not list the primary
plugins, and the result still starts with `A`, `B` and ends with `C`; the container `A`,
`B`, `C`, `D` lists them, and the result is a rearrangement of its names. -/
theorem readPluginList_rearranges_witness :
    ((readPluginList demoOrganizer (demoFileSystem none none) insertionSorter
        missingPluginList).1.take demoOrganizer.primaryPlugins.length =
      ["A".toList, "B".toList]) ∧
    ((readPluginList demoOrganizer (demoFileSystem none none) insertionSorter
        missingPluginList).1.drop demoOrganizer.primaryPlugins.length).Perm ["C".toList] ∧
    demoOrganizer.primaryPlugins.Perm
      (demoPluginList.pluginNames.filter (fun n => containsCI demoOrganizer.primaryPlugins n)) ∧
    (readPluginList demoOrganizer (demoFileSystem none none) insertionSorter
        demoPluginList).1.Perm demoPluginList.pluginNames :=
  ⟨(readPluginList_rearranges demoOrganizer (demoFileSystem none none) insertionSorter
      missingPluginList).1,
    (readPluginList_rearranges demoOrganizer (demoFileSystem none none) insertionSorter
      missingPluginList).2.1,
    by decide,
    (readPluginList_rearranges demoOrganizer (demoFileSystem none none) insertionSorter
      demoPluginList).2.2.2 (by decide)⟩

/-- C20. `getLoadOrder` agrees with `readPluginLists`: for the same instance, files and
container it takes the same branch, it returns the list that `readPluginLists` passes to
`setLoadOrder`, and it changes neither `m_LastRead` nor any other field or file. -/
theorem getLoadOrder_agrees (org : Organizer) (fs : FileSystem) (sorter : StdSort)
    (now : Nat) (self : GamebryoGamePlugins) (pl : IPluginList) :
    (getLoadOrder org fs sorter self pl).1 =
      (readPluginLists org fs sorter now self pl).2.loadOrder ∧
    (getLoadOrder org fs sorter self pl =
      if self.m_LastRead.isValid = true ∧ fs.fileExists (loadOrderPath org) = true ∧
          QDateTime.lt self.m_LastRead (fs.lastModified (loadOrderPath org)) = false ∧
          QDateTime.lt self.m_LastRead (fs.lastModified (pluginsPath org)) = true
      then readPluginList org fs sorter pl
      else readLoadOrderList org fs sorter pl (loadOrderPath org)) ∧
    (∀ (encs : Encoders) (hashFn : QByteArray → QByteArray) (disk : Disk),
      runCall org encs hashFn sorter (self, disk) (.getLoadOrder fs pl) = (self, disk)) := by
  have hget : getLoadOrder org fs sorter self pl =
      if (loadOrderIsNew org fs self || !pluginsIsNew org fs self) = true then
        readLoadOrderList org fs sorter pl (loadOrderPath org)
      else readPluginList org fs sorter pl := rfl
  refine ⟨?_, ?_, fun _ _ _ => rfl⟩
  · rw [readPluginLists_loadOrder, hget]
    split <;> rfl
  · rw [hget]
    by_cases hc : (loadOrderIsNew org fs self || !pluginsIsNew org fs self) = true
    · rw [if_pos hc, if_neg ((explicit_branch_iff org fs self).1 hc)]
    · rw [if_neg hc, if_pos (not_not.1 (fun hn => hc ((explicit_branch_iff org fs self).2 hn)))]

end Gamebryo
